import Mathlib

/-!
Verification of the godump value-rendering engine against its specification.

The Go renderer (`printValue` and the functions around it) is embedded shallowly:
reflected runtime values become the inductive `Godump.RVal`, pointers refer into an
explicit heap (`List RVal`) by index so that cyclic object graphs are expressible,
and the renderer is a fuel-indexed total function returning `none` exactly when the
fuel runs out.  The unstyled colorizer is used throughout (ANSI/HTML wrapping is a
pluggable decoration orthogonal to every property below), and the tabwriter and
call-site header are presentation plumbing that is not modelled.
-/

set_option maxHeartbeats 1000000

namespace Godump

/-- `subAt needle hay` is true when `needle` is an initial segment of `hay`. -/
def subAt : List Char → List Char → Bool
  | [], _ => true
  | _ :: _, [] => false
  | a :: as, b :: bs => a == b && subAt as bs

/-- `containsSubL needle hay` is true when `needle` occurs contiguously in `hay`. -/
def containsSubL (n : List Char) : List Char → Bool
  | [] => n.isEmpty
  | c :: t => subAt n (c :: t) || containsSubL n t

/-- `containsSub needle hay` tests whether `needle` occurs as a contiguous
substring of `hay`. -/
def containsSub (n h : String) : Bool :=
  containsSubL n.toList h.toList

/-- Default configuration constants of the Go `Dumper`. -/
def defaultMaxDepth : Int := 15

/-- Default `maxItems` of the Go `Dumper`. -/
def defaultMaxItems : Int := 100

/-- Default `maxStringLen` of the Go `Dumper`. -/
def defaultMaxStringLen : Int := 100000

/-- The width of one indentation level (`indentWidth` in the source). -/
def indentWidth : Nat := 2

/-- Configuration of the dumper: the `maxDepth`, `maxItems` and `maxStringLen`
fields of the Go `Dumper` struct.  The writer, colorizer and caller-lookup fields
only affect where and how decorated the text goes, not which text is produced,
and are not modelled. -/
structure Dumper where
  maxDepth : Int
  maxItems : Int
  maxStringLen : Int
deriving Repr, DecidableEq

/-- `WithMaxDepth`: sets `maxDepth` when the argument is `≥ 0`, otherwise the
option is ignored (source lines 107–114). -/
def WithMaxDepth (n : Int) : Dumper → Dumper := fun d =>
  if n ≥ 0 then { d with maxDepth := n } else d

/-- `WithMaxItems`: sets `maxItems` when the argument is `≥ 0`, otherwise ignored. -/
def WithMaxItems (n : Int) : Dumper → Dumper := fun d =>
  if n ≥ 0 then { d with maxItems := n } else d

/-- `WithMaxStringLen`: sets `maxStringLen` when the argument is `≥ 0`,
otherwise ignored. -/
def WithMaxStringLen (n : Int) : Dumper → Dumper := fun d =>
  if n ≥ 0 then { d with maxStringLen := n } else d

/-- `NewDumper`: the defaults with a list of functional options applied in order. -/
def NewDumper (opts : List (Dumper → Dumper)) : Dumper :=
  opts.foldl (fun d opt => opt d)
    { maxDepth := defaultMaxDepth
      maxItems := defaultMaxItems
      maxStringLen := defaultMaxStringLen }

/-- A reflected Go value as `printValue` classifies it.  Pointers refer into a heap
(`List RVal`) by index, so self-referential object graphs are expressible while the
data stays inductive.  `vstringer` stands for a value whose dynamic type implements
`fmt.Stringer` (the renderer prints its string form, or `<type>(nil)` for a nil
pointer receiver, and never descends further, so the receiver's structure is
irrelevant).  A `[]uint8` slice is `vbytes`, matching the convertibility test that
routes it to the hex-dump formatter.  Map entries carry the already-stringified key
(the source formats keys with `%v`, not recursively).  Float, complex and
unsafe-pointer leaves are omitted: no claim mentions them and they are terminal
one-line cases. -/
inductive RVal : Type where
  | invalid : RVal
  | vbool (b : Bool) : RVal
  | vint (n : Int) : RVal
  | vuint (n : Nat) : RVal
  | vstring (s : String) : RVal
  | vchan (t : String) (addr : Option Nat) : RVal
  | vfunc (t : String) (isNil : Bool) : RVal
  | vptr (t : String) (addr : Option Nat) : RVal
  | viface (t : String) (inner : Option RVal) : RVal
  | vstruct (t : String) (fields : List (String × Bool × RVal)) : RVal
  | vslice (t : String) (elems : Option (List RVal)) : RVal
  | varray (t : String) (elems : List RVal) : RVal
  | vbytes (t : String) (data : Option (List Nat)) : RVal
  | vmap (t : String) (entries : Option (List (String × RVal))) : RVal
  | vstringer (t : String) (method : String) (isNilPtr : Bool) : RVal

/-- `isNil` from the source: the nil test for pointer, slice, map, interface,
function and channel kinds; every other kind is never nil. -/
def isNilV : RVal → Bool
  | .vptr _ none => true
  | .vslice _ none => true
  | .vbytes _ none => true
  | .vmap _ none => true
  | .viface _ none => true
  | .vfunc _ b => b
  | .vchan _ none => true
  | _ => false

/-- The static type string of a value (`v.Type().String()`), used by the nil and
channel renderings; empty for kinds that never print their type this way. -/
def typeName : RVal → String
  | .vptr t _ => t
  | .vslice t _ => t
  | .vbytes t _ => t
  | .vmap t _ => t
  | .viface t _ => t
  | .vfunc t _ => t
  | .vchan t _ => t
  | .vstringer t _ _ => t
  | _ => ""

/-- `asStringer` from the source: a `vstringer` node implements `fmt.Stringer`.
For a nil pointer receiver the `String` method is not invoked and the text is
`<type>(nil)`; otherwise the method result followed by a space, `#` and the type
name.  Returns `none` where the source returns the empty string (value does not
implement the interface). -/
def asStringer : RVal → Option String
  | .vstringer t m isNilPtr =>
    some (if isNilPtr then t ++ "(nil)" else m ++ " #" ++ t)
  | _ => none

/-- One entry of the character-wise escape table behind `strings.NewReplacer`
(all six patterns are single characters, so the replacer is a character map). -/
def escChar (c : Char) : String :=
  if c = '\n' then "\\n"
  else if c = '\t' then "\\t"
  else if c = '\r' then "\\r"
  else if c = Char.ofNat 11 then "\\v"
  else if c = Char.ofNat 12 then "\\f"
  else if c = Char.ofNat 27 then "\\x1b"
  else String.singleton c

/-- One pass over the characters, concatenating replacements. -/
def escapeList : List Char → String
  | [] => ""
  | c :: cs => escChar c ++ escapeList cs

/-- `escapeControl` from the source: escape control characters for display
(the replacer's single pass, character by character). -/
def escapeControl (s : String) : String :=
  escapeList s.toList

/-- `indentPrint`'s prefix: `indent * indentWidth` spaces. -/
def indentStr (indent : Nat) : String :=
  String.mk (List.replicate (indent * indentWidth) ' ')

/-- Lowercase hexadecimal rendering of a natural number (Go `%x`). -/
def hexStr (n : Nat) : String :=
  String.mk (Nat.toDigits 16 n)

/-- Zero-padded hexadecimal rendering of width `w` (Go `%0wx`). -/
def hexPad (w n : Nat) : String :=
  let s := hexStr n
  String.mk (List.replicate (w - s.length) '0') ++ s

/-- The reference-tracking state: the `referenceMap` association list and the
process-global `nextRefID` counter (source lines 45–48). -/
structure RefSt where
  refMap : List (Nat × Nat)
  nextID : Nat
deriving Repr, DecidableEq

/-- The hex area of one hex-dump line: sixteen cells of `"%02x "` (or three blanks
past the end of the data), with an extra space after the eighth cell; also returns
the visible length accumulated by the source loop. -/
def hexCells (line : List Nat) : String × Nat :=
  (List.range 16).foldl
    (fun (acc : String × Nat) j =>
      let cell := if h : j < line.length then hexPad 2 (line.get ⟨j, h⟩) ++ " " else "   "
      let cell := if j == 7 then cell ++ " " else cell
      (acc.1 ++ cell, acc.2 + cell.length))
    ("", 0)

/-- The ASCII column of one hex-dump line: printable bytes (0x20–0x7E) as
themselves, everything else as a dot. -/
def asciiOf (line : List Nat) : String :=
  String.join (line.map fun c =>
    if 32 ≤ c && c ≤ 126 then String.singleton (Char.ofNat c) else ".")

/-- One body line of `formatByteSliceAsHexDump`: offset, hex cells, padding to the
ASCII column, and the ASCII section padded to sixteen characters. -/
def hexDumpLine (bodyIndent : String) (i : Nat) (line : List Nat) : String :=
  let offsetStr := hexPad 8 i ++ "  "
  let cells := hexCells line
  let visibleLen := offsetStr.length + cells.2
  let padding := max 1 (50 - visibleLen)
  let ascii := asciiOf line
  let ascii :=
    if line.length < 16 then ascii ++ String.mk (List.replicate (16 - line.length) ' ')
    else ascii
  bodyIndent ++ offsetStr ++ cells.1 ++ String.mk (List.replicate padding ' ')
    ++ "| " ++ ascii ++ " |" ++ "\n"

/-- The body of the hex dump: one line per sixteen bytes, offsets stepping by
sixteen, the final line possibly shorter.  The first argument is structural fuel;
each step consumes at least sixteen bytes, so fuel `b.length` always suffices
(see `hexDumpStr`). -/
def hexDumpLines (bodyIndent : String) : Nat → List Nat → Nat → String
  | 0, _, _ => ""
  | _ + 1, [], _ => ""
  | fuel + 1, x :: xs, i =>
    hexDumpLine bodyIndent i ((x :: xs).take 16)
      ++ hexDumpLines bodyIndent fuel ((x :: xs).drop 16) (i + 16)

/-- `formatByteSliceAsHexDump` from the source: header with length and capacity,
hex/ASCII body, closing brace dedented one level.  A fresh `[]byte` conversion has
capacity equal to length, which is how capacity is modelled. -/
def hexDumpStr (b : List Nat) (indent : Nat) : String :=
  "([]uint8) (len=" ++ toString b.length ++ " cap=" ++ toString b.length ++ ") \x7b"
    ++ "\n"
    ++ hexDumpLines (indentStr indent) b.length b 0
    ++ indentStr (indent - 1) ++ "\x7d"

mutual

/-- Shallow embedding of `printValue` (source lines 407–545), indexed by fuel;
`none` means the fuel ran out.  Arguments beyond the configuration and heap:
the value, its addressability (`v.CanAddr()`), the current indent, and the
reference-tracking state.  The dispatch order is the source's: depth guard,
invalid, `asStringer`, channel, nil, pointer reference check, kind switch.
Pointer and interface indirection keep the same indent; struct fields and
collection elements render at `indent + 1`.  A pointee is always addressable, an
interface's dynamic value and a map value never are, slice elements always are,
array elements and struct fields inherit the parent's addressability. -/
def printValueF (d : Dumper) (heap : List RVal) (fuel : Nat) (v : RVal)
    (canAddr : Bool) (indent : Nat) (st : RefSt) : Option (String × RefSt) :=
  match fuel with
  | 0 => none
  | f + 1 =>
    if (indent : Int) > d.maxDepth then some ("... (max depth)", st)
    else
      match v with
      | .invalid => some ("<invalid>", st)
      | _ =>
        match asStringer v with
        | some s => some (s, st)
        | none =>
          match v with
          | .vchan t addr =>
            some (match addr with
              | none => t ++ "(nil)"
              | some a => t ++ "(0x" ++ hexStr a ++ ")", st)
          | _ =>
            if isNilV v then some (typeName v ++ "(nil)", st)
            else
              match v, canAddr with
              | .vptr _ (some a), true =>
                match st.refMap.lookup a with
                | some id => some ("↩︎ &" ++ toString id, st)
                | none =>
                  let st' : RefSt := ⟨(a, st.nextID) :: st.refMap, st.nextID + 1⟩
                  match heap[a]? with
                  | none => some ("<invalid>", st')
                  | some pv => printValueF d heap f pv true indent st'
              | .vptr _ (some a), false =>
                match heap[a]? with
                | none => some ("<invalid>", st)
                | some pv => printValueF d heap f pv true indent st
              | .viface _ (some w), _ => printValueF d heap f w false indent st
              | .vstruct t fields, ca =>
                match fieldsLoopF d heap f fields ca indent st with
                | none => none
                | some (body, st1) =>
                  some ("#" ++ t ++ " \x7b" ++ "\n" ++ body ++ indentStr indent ++ "\x7d", st1)
              | .vbytes _ (some data), _ =>
                some (hexDumpStr data (indent + 1), st)
              | .vslice _ (some elems), _ =>
                match sliceLoopF d heap f elems true 0 indent st with
                | none => none
                | some (body, st1) =>
                  some ("[" ++ "\n" ++ body ++ indentStr indent ++ "]", st1)
              | .varray _ elems, ca =>
                match sliceLoopF d heap f elems ca 0 indent st with
                | none => none
                | some (body, st1) =>
                  some ("[" ++ "\n" ++ body ++ indentStr indent ++ "]", st1)
              | .vmap _ (some entries), _ =>
                match mapLoopF d heap f entries 0 indent st with
                | none => none
                | some (body, st1) =>
                  some ("\x7b" ++ "\n" ++ body ++ indentStr indent ++ "\x7d", st1)
              | .vstring s, _ =>
                let str := escapeControl s
                let str :=
                  if (str.length : Int) > d.maxStringLen then
                    String.mk (str.toList.take d.maxStringLen.toNat) ++ "…"
                  else str
                some ("\"" ++ str ++ "\"", st)
              | .vbool b, _ => some (if b then "true" else "false", st)
              | .vint n, _ => some (toString n, st)
              | .vuint n, _ => some (toString n, st)
              | .vfunc t _, _ => some (t, st)
              | _, _ => some ("", st)
termination_by structural fuel

/-- The struct-field loop of `printValue` (source lines 457–474): each field line
is indent, `+`/`-` symbol, name, a tab and `=> `, then the field's rendering — via
`asStringer` directly when the field implements it (bypassing the depth guard),
else recursively at `indent + 1` — and a newline.  The reference state threads
left to right. -/
def fieldsLoopF (d : Dumper) (heap : List RVal) (fuel : Nat)
    (fields : List (String × Bool × RVal)) (ca : Bool) (indent : Nat)
    (st : RefSt) : Option (String × RefSt) :=
  match fuel with
  | 0 => none
  | f + 1 =>
    match fields with
    | [] => some ("", st)
    | (name, exported, fv) :: rest =>
      let sym := if exported then "+" else "-"
      let head := indentStr (indent + 1) ++ sym ++ name ++ "\t=> "
      match asStringer fv with
      | some s =>
        match fieldsLoopF d heap f rest ca indent st with
        | none => none
        | some (tail, st1) => some (head ++ s ++ "\n" ++ tail, st1)
      | none =>
        match printValueF d heap f fv ca (indent + 1) st with
        | none => none
        | some (out, st1) =>
          match fieldsLoopF d heap f rest ca indent st1 with
          | none => none
          | some (tail, st2) => some (head ++ out ++ "\n" ++ tail, st2)
termination_by structural fuel

/-- The slice/array element loop (source lines 510–518): entries up to
`maxItems`, then an indented `... (truncated)` marker line and nothing further;
`elemAddr` is the addressability passed to the elements. -/
def sliceLoopF (d : Dumper) (heap : List RVal) (fuel : Nat) (elems : List RVal)
    (elemAddr : Bool) (i : Nat) (indent : Nat) (st : RefSt) :
    Option (String × RefSt) :=
  match fuel with
  | 0 => none
  | f + 1 =>
    match elems with
    | [] => some ("", st)
    | e :: rest =>
      if (i : Int) ≥ d.maxItems then
        some (indentStr (indent + 1) ++ "... (truncated)\n", st)
      else
        match printValueF d heap f e elemAddr (indent + 1) st with
        | none => none
        | some (out, st1) =>
          match sliceLoopF d heap f rest elemAddr (i + 1) indent st1 with
          | none => none
          | some (tail, st2) =>
            some (indentStr (indent + 1) ++ toString i ++ " => " ++ out ++ "\n" ++ tail, st2)
termination_by structural fuel

/-- The map entry loop (source lines 483–493): entries up to `maxItems`, then an
indented `... (truncated)` marker (no trailing newline) and nothing further; map
values are never addressable. -/
def mapLoopF (d : Dumper) (heap : List RVal) (fuel : Nat)
    (entries : List (String × RVal)) (i : Nat) (indent : Nat) (st : RefSt) :
    Option (String × RefSt) :=
  match fuel with
  | 0 => none
  | f + 1 =>
    match entries with
    | [] => some ("", st)
    | (k, val) :: rest =>
      if (i : Int) ≥ d.maxItems then
        some (indentStr (indent + 1) ++ "... (truncated)", st)
      else
        match printValueF d heap f val false (indent + 1) st with
        | none => none
        | some (out, st1) =>
          match mapLoopF d heap f rest (i + 1) indent st1 with
          | none => none
          | some (tail, st2) =>
            some (indentStr (indent + 1) ++ " " ++ k ++ " => " ++ out ++ "\n" ++ tail, st2)
termination_by structural fuel

end

/-- `makeAddressable` wraps a non-addressable struct in a fresh pointer so its
address can be taken; every other non-addressable value is returned unchanged.
Modelled as the addressability flag of a top-level argument. -/
def makeAddressable : RVal → Bool
  | .vstruct _ _ => true
  | _ => false

/-- The per-value body of `writeDump`: render each argument (after
`makeAddressable`) at indent 0 and append a newline, threading the reference
state. -/
def writeValsF (d : Dumper) (heap : List RVal) (fuel : Nat) :
    List RVal → RefSt → Option (String × RefSt)
  | [], st => some ("", st)
  | v :: rest, st =>
    match printValueF d heap fuel v (makeAddressable v) 0 st with
    | none => none
    | some (out, st1) =>
      match writeValsF d heap fuel rest st1 with
      | none => none
      | some (tail, st2) => some (out ++ "\n" ++ tail, st2)

/-- `writeDump` (source lines 396–405): resets `referenceMap` to empty — the
process-global `nextRefID` counter `g` is carried over, not reset — then renders
the arguments.  Returns the output and the counter left behind for the next call. -/
def writeDumpF (d : Dumper) (heap : List RVal) (fuel : Nat) (vs : List RVal)
    (g : Nat) : Option (String × Nat) :=
  match writeValsF d heap fuel vs ⟨[], g⟩ with
  | none => none
  | some (out, st) => some (out, st.nextID)

/-- The default dumper instance (`defaultDumper = NewDumper()` in the source). -/
def defaultDumper : Dumper := NewDumper []

/-! ### The HTTP instrumentation wrapper (`http_dumper.go`)

`RoundTrip` is driven by three fallible collaborators — `httputil.DumpRequestOut`,
the wrapped transport, and `httputil.DumpResponse` — modelled as an environment of
`Except` outcomes (`error` carries the Go error's message, `ok` the captured text,
respectively the response).  The observable result is the returned response, the
returned error, and the transaction handed to the dumper (`none` when the dumper
was not invoked).  Durations and the parsed header maps do not matter to any
claim; the transaction is carried as the raw captured request/response pair. -/

/-- The outcomes of the three fallible collaborators one `RoundTrip` call consults. -/
structure RTEnv where
  reqDump : Except String String
  transport : Except String String
  respDump : Except String String

/-- The observable effect of one `RoundTrip` call. -/
structure RTResult where
  resp : Option String
  err : Option String
  dumped : Option (String × String)
deriving Repr, DecidableEq

/-- `HTTPDebugTransport.RoundTrip` (http_dumper.go lines 174–217): with debug off,
pass through, wrapping a transport error; with debug on, a request-dump failure
returns a wrapped error and nothing else happens, a transport failure returns a
wrapped error, a response-dump failure returns the response with a nil error
(`return resp, nil // Still return resp even if dump fails`), and only when both
captures succeeded is the dumper invoked on the combined transaction. -/
def roundTripHTTP (debugEnabled : Bool) (e : RTEnv) : RTResult :=
  if ¬debugEnabled then
    match e.transport with
    | .error msg =>
      ⟨none, some ("HTTPDebugTransport: pass-through round trip failed: " ++ msg), none⟩
    | .ok r => ⟨some r, none, none⟩
  else
    match e.reqDump with
    | .error msg =>
      ⟨none, some ("HTTPDebugTransport: failed to dump request: " ++ msg), none⟩
    | .ok rq =>
      match e.transport with
      | .error msg => ⟨none, some ("HTTPDebugTransport: round trip failed: " ++ msg), none⟩
      | .ok r =>
        match e.respDump with
        | .error _ => ⟨some r, none, none⟩
        | .ok rs => ⟨some r, none, some (rq, rs)⟩

/-- The legacy `HttpDebugTransport.RoundTrip` (http_dumper.go lines 40–77): with
debug on and the request dump succeeding, a transport error is returned raw, a
response-dump failure yields the response with a nil error; when the request dump
fails the whole debug block is skipped and the call degenerates to the plain
pass-through (the dump error is dropped).  Errors are never wrapped here. -/
def roundTripHttp (debugEnabled : Bool) (e : RTEnv) : RTResult :=
  if debugEnabled then
    match e.reqDump with
    | .ok rq =>
      match e.transport with
      | .error msg => ⟨none, some msg, none⟩
      | .ok r =>
        match e.respDump with
        | .error _ => ⟨some r, none, none⟩
        | .ok rs => ⟨some r, none, some (rq, rs)⟩
    | .error _ =>
      match e.transport with
      | .error msg => ⟨none, some msg, none⟩
      | .ok r => ⟨some r, none, none⟩
  else
    match e.transport with
    | .error msg => ⟨none, some msg, none⟩
    | .ok r => ⟨some r, none, none⟩

/-! ### The JSON path (`DumpJSONStr`) -/

/-- A JSON-encodable value: the fragment of `encoding/json` inputs needed here. -/
inductive JVal : Type where
  | jnull : JVal
  | jbool (b : Bool) : JVal
  | jnum (n : Int) : JVal
  | jstr (s : String) : JVal
  | jarr (xs : List JVal) : JVal
  | jobj (fields : List (String × JVal)) : JVal

/-- `encoding/json` string quoting for the characters appearing here. -/
def jescChar (c : Char) : String :=
  if c = '"' then "\\\"" else if c = '\\' then "\\\\" else String.singleton c

/-- A quoted JSON string literal. -/
def jquote (s : String) : String :=
  "\"" ++ String.join (s.toList.map jescChar) ++ "\""

/-- The indentation `json.MarshalIndent` uses here: two spaces per level
(`strings.Repeat(" ", indentWidth)`). -/
def jind (lvl : Nat) : String :=
  String.mk (List.replicate (lvl * 2) ' ')

mutual

/-- `json.MarshalIndent` with empty prefix and two-space indent, over `JVal`. -/
def marshalIndentF (v : JVal) (lvl : Nat) : String :=
  match v with
  | .jnull => "null"
  | .jbool b => if b then "true" else "false"
  | .jnum n => toString n
  | .jstr s => jquote s
  | .jarr [] => "[]"
  | .jarr (x :: xs) =>
    "[" ++ "\n" ++ marshalItems (x :: xs) (lvl + 1) ++ "\n" ++ jind lvl ++ "]"
  | .jobj [] => "\x7b\x7d"
  | .jobj (f :: fs) =>
    "\x7b" ++ "\n" ++ marshalFields (f :: fs) (lvl + 1) ++ "\n" ++ jind lvl ++ "\x7d"

/-- Comma-joined indented array items. -/
def marshalItems (xs : List JVal) (lvl : Nat) : String :=
  match xs with
  | [] => ""
  | [x] => jind lvl ++ marshalIndentF x lvl
  | x :: y :: rest =>
    jind lvl ++ marshalIndentF x lvl ++ ",\n" ++ marshalItems (y :: rest) lvl

/-- Comma-joined indented object members. -/
def marshalFields (fs : List (String × JVal)) (lvl : Nat) : String :=
  match fs with
  | [] => ""
  | [(k, v)] => jind lvl ++ jquote k ++ ": " ++ marshalIndentF v lvl
  | (k, v) :: g :: rest =>
    jind lvl ++ jquote k ++ ": " ++ marshalIndentF v lvl ++ ",\n" ++ marshalFields (g :: rest) lvl

end

/-- `DumpJSONStr` (source lines 207–224): zero arguments yield a fixed error
payload; one argument is encoded directly; several arguments are encoded as an
array.  Encoding is total on `JVal` (the marshal-error fallback of lines 218–222
fires only for unencodable kinds such as channels, which `JVal` excludes). -/
def DumpJSONStr (vs : List JVal) : String :=
  match vs with
  | [] => "\x7b\"error\": \"DumpJSON called with no arguments\"\x7d"
  | [v] => marshalIndentF v 0
  | _ => marshalIndentF (.jarr vs) 0

/-! ### Substring lemmas -/

theorem subAt_refl_append (n t : List Char) : subAt n (n ++ t) = true := by
  induction n with
  | nil => rfl
  | cons a as ih => simp [subAt, ih]

theorem subAt_extend (n : List Char) : ∀ s t, subAt n s = true → subAt n (s ++ t) = true := by
  induction n with
  | nil => intro s t _; rfl
  | cons a as ih =>
    intro s t h
    cases s with
    | nil => simp [subAt] at h
    | cons b bs =>
      simp only [subAt, Bool.and_eq_true, beq_iff_eq] at h
      simp [subAt, h.1, ih bs t h.2]

theorem containsSubL_nil (h : List Char) : containsSubL [] h = true := by
  cases h <;> simp [containsSubL, subAt, List.isEmpty]

theorem containsSubL_append_right (n t : List Char) :
    ∀ s, containsSubL n t = true → containsSubL n (s ++ t) = true := by
  intro s
  induction s with
  | nil => intro h; simpa using h
  | cons c cs ih =>
    intro h
    simp only [List.cons_append, containsSubL, Bool.or_eq_true]
    exact Or.inr (ih h)

theorem containsSubL_append_left (n : List Char) :
    ∀ s t, containsSubL n s = true → containsSubL n (s ++ t) = true := by
  intro s
  induction s with
  | nil =>
    intro t h
    simp only [containsSubL, List.isEmpty_iff] at h
    subst h
    simpa using containsSubL_nil t
  | cons c cs ih =>
    intro t h
    simp only [containsSubL, Bool.or_eq_true] at h
    rcases h with h | h
    · simp only [List.cons_append, containsSubL, Bool.or_eq_true]
      exact Or.inl (subAt_extend n (c :: cs) t h)
    · simp only [List.cons_append, containsSubL, Bool.or_eq_true]
      exact Or.inr (ih t h)

theorem containsSubL_self_append (n t : List Char) : containsSubL n (n ++ t) = true := by
  cases n with
  | nil => exact containsSubL_nil t
  | cons a as =>
    simp only [List.cons_append, containsSubL, Bool.or_eq_true]
    exact Or.inl (by simpa using subAt_refl_append (a :: as) t)

theorem toList_append (a b : String) : (a ++ b).toList = a.toList ++ b.toList := rfl

theorem containsSub_append_right (n a b : String) :
    containsSub n b = true → containsSub n (a ++ b) = true := by
  intro h
  unfold containsSub at h ⊢
  rw [toList_append]
  exact containsSubL_append_right _ _ _ h

theorem containsSub_append_left (n a b : String) :
    containsSub n a = true → containsSub n (a ++ b) = true := by
  intro h
  unfold containsSub at h ⊢
  rw [toList_append]
  exact containsSubL_append_left _ _ _ h

theorem containsSub_self_append (n t : String) : containsSub n (n ++ t) = true := by
  unfold containsSub
  rw [toList_append]
  exact containsSubL_self_append _ _

/-! ### Example values -/

/-- The heap of the Go program `var x any = &x`: address 0 holds an `any`
interface variable whose dynamic value is a `*any` pointing back at the variable
itself. -/
def selfIfaceHeap : List RVal :=
  [.viface "interface \x7b\x7d" (some (.vptr "*interface \x7b\x7d" (some 0)))]

/-- What `reflect.ValueOf(x)` yields for `var x any = &x`: the dynamic `*any`
value, which is not addressable at top level. -/
def selfIfacePtr : RVal := .vptr "*interface \x7b\x7d" (some 0)

/-- Unfolding helper: one step of the divergent loop, pointer side.  The `*any`
value is not addressable, so the reference check is skipped (source line 438
requires `CanAddr`), and the pointee — the interface variable — is rendered at
the same indent. -/
theorem selfIface_ptr_step (f : Nat) (st : RefSt) :
    printValueF defaultDumper selfIfaceHeap (f + 1) selfIfacePtr false 0 st
      = printValueF defaultDumper selfIfaceHeap f
          (.viface "interface \x7b\x7d" (some selfIfacePtr)) true 0 st := rfl

/-- Unfolding helper: one step of the divergent loop, interface side.  The
interface's dynamic value — the `*any` again, not addressable since interface
`Elem` values never are — is rendered at the same indent. -/
theorem selfIface_iface_step (f : Nat) (st : RefSt) :
    printValueF defaultDumper selfIfaceHeap (f + 1)
        (.viface "interface \x7b\x7d" (some selfIfacePtr)) true 0 st
      = printValueF defaultDumper selfIfaceHeap f selfIfacePtr false 0 st := rfl

/-- The loop never terminates: rendering consumes any amount of fuel. -/
theorem selfIface_loop (f : Nat) :
    ∀ st : RefSt,
      printValueF defaultDumper selfIfaceHeap f selfIfacePtr false 0 st = none
      ∧ printValueF defaultDumper selfIfaceHeap f
          (.viface "interface \x7b\x7d" (some selfIfacePtr)) true 0 st = none := by
  induction f with
  | zero => intro st; exact ⟨rfl, rfl⟩
  | succ f ih =>
    intro st
    exact ⟨(selfIface_ptr_step f st).trans (ih st).2,
      (selfIface_iface_step f st).trans (ih st).1⟩

/-- C2: REFUTED — the code has a genuine divergence.  For the well-formed Go
value `var x any = &x` (a self-referential interface), `printValue` recurses
forever: the `*any` node is never addressable (it arises at top level or as an
interface's dynamic value), so the cycle check at source line 438 never registers
it, and pointer/interface indirection never increments the depth, so the depth
guard never fires either.  In the model the render consumes every finite amount
of fuel, at the `printValue` level and at the `writeDump` level; in Go this is
unbounded recursion ending in a stack overflow, contradicting the claim that
rendering terminates normally for every well-formed value. -/
theorem selfIface_render_diverges (f : Nat) (st : RefSt) (g : Nat) :
    printValueF defaultDumper selfIfaceHeap f selfIfacePtr false 0 st = none
    ∧ writeDumpF defaultDumper selfIfaceHeap f [selfIfacePtr] g = none := by
  refine ⟨(selfIface_loop f st).1, ?_⟩
  have h := (selfIface_loop f ⟨[], g⟩).1
  simp only [writeDumpF, writeValsF, selfIfacePtr, makeAddressable] at h ⊢
  rw [h]

/-- C9: CONFIRMED — a value whose type implements `fmt.Stringer` but whose
underlying value is a nil pointer renders as `<type>(nil)` without the `String`
method being invoked (the output is independent of the method's result `m`),
while a non-nil Stringer renders the method result followed by ` #<type>`
(source lines 548–563). -/
theorem stringer_nil_guard (t m : String) (heap : List RVal) (f : Nat) (c : Bool)
    (st : RefSt) :
    printValueF defaultDumper heap (f + 1) (.vstringer t m true) c 0 st
      = some (t ++ "(nil)", st)
    ∧ printValueF defaultDumper heap (f + 1) (.vstringer t m false) c 0 st
      = some (m ++ " #" ++ t, st) :=
  ⟨rfl, rfl⟩

/-- C5: REFUTED as stated — a failure to capture the incoming response is *not*
surfaced: with debug on, request capture and transport both succeeding, and
`httputil.DumpResponse` failing, `RoundTrip` returns the response with a `nil`
error (`return resp, nil // Still return resp even if dump fails`, line 202) and
the dumper is not invoked.  The claim requires `err` to be a wrapped error here. -/
theorem respDump_failure_swallowed_cx :
    roundTripHTTP true ⟨Except.ok "REQ", Except.ok "RESP", Except.error "short body"⟩
      = ⟨some "RESP", none, none⟩
    ∧ (roundTripHTTP true
        ⟨Except.ok "REQ", Except.ok "RESP", Except.error "short body"⟩).err = none :=
  ⟨rfl, rfl⟩

/-- C5 (amended): the error contract the code actually implements.  In
`HTTPDebugTransport`: a request-capture failure is surfaced as an error wrapped
with context and the dumper is not invoked; a response-capture failure is
silently ignored — the response is returned with a `nil` error — and the dumper
is not invoked; the dumper only ever receives a transaction whose request and
response texts were both captured successfully (never partial or nil data).  In
the legacy `HttpDebugTransport` no capture failure is surfaced at all: a
request-capture failure makes the call degenerate to the plain pass-through, and
it too never invokes the dumper on partial data. -/
theorem roundTrip_error_contract (e : RTEnv) :
    (∀ msg, e.reqDump = Except.error msg →
      roundTripHTTP true e
        = ⟨none, some ("HTTPDebugTransport: failed to dump request: " ++ msg), none⟩)
    ∧ (∀ rq r msg, e.reqDump = Except.ok rq → e.transport = Except.ok r →
        e.respDump = Except.error msg → roundTripHTTP true e = ⟨some r, none, none⟩)
    ∧ (∀ tx, (roundTripHTTP true e).dumped = some tx →
        e.reqDump = Except.ok tx.1 ∧ e.respDump = Except.ok tx.2)
    ∧ (∀ msg, e.reqDump = Except.error msg → roundTripHttp true e = roundTripHttp false e)
    ∧ (∀ tx, (roundTripHttp true e).dumped = some tx →
        e.reqDump = Except.ok tx.1 ∧ e.respDump = Except.ok tx.2) := by
  obtain ⟨rd, tr, pd⟩ := e
  refine ⟨?_, ?_, ?_, ?_, ?_⟩ <;>
    cases rd <;> cases tr <;> cases pd <;>
      simp [roundTripHTTP, roundTripHttp] <;>
        intro h <;> simp_all

/-- Witness for C5's amended theorem at concrete collaborator outcomes. -/
theorem roundTrip_error_contract_witness :
    roundTripHTTP true ⟨Except.error "x", Except.ok "r", Except.ok "s"⟩
      = ⟨none, some "HTTPDebugTransport: failed to dump request: x", none⟩ :=
  (roundTrip_error_contract ⟨Except.error "x", Except.ok "r", Except.ok "s"⟩).1 "x" rfl

/-- C10: CONFIRMED — `DumpJSONStr` with zero arguments returns the fixed error
payload, which is neither `"null"` nor an empty encoding. -/
theorem dumpJSONStr_no_args :
    DumpJSONStr [] = "\x7b\"error\": \"DumpJSON called with no arguments\"\x7d"
    ∧ DumpJSONStr [] ≠ "null"
    ∧ DumpJSONStr [] ≠ ""
    ∧ DumpJSONStr [] ≠ "\x7b\x7d" := by
  exact ⟨rfl, by decide, by decide, by decide⟩

/-! ### C1: reference ids across render calls -/

/-- The heap of the Go test value `n := &Node{}; n.Next = n`. -/
def cycleHeap : List RVal :=
  [.vstruct "godump.Node" [("Next", true, .vptr "*godump.Node" (some 0))]]

/-- The top-level argument: the (non-addressable) `*Node`. -/
def cyclePtr : RVal := .vptr "*godump.Node" (some 0)

/-- C1: REFUTED — `writeDump` resets `referenceMap` but not the package-level
`nextRefID` counter (source line 397 resets only the map), so ids do not restart
across render calls.  The first render of the cyclic node (counter at its initial
value 1) emits `↩︎ &1` and leaves the counter at 2; rendering the very same value
again in a fresh render call then emits `↩︎ &2` and no `↩︎ &1`. -/
theorem refID_not_restarted_cx :
    (writeDumpF defaultDumper cycleHeap 20 [cyclePtr] 1).map Prod.snd = some 2
    ∧ (writeDumpF defaultDumper cycleHeap 20 [cyclePtr] 1).map
        (fun p => containsSub "↩︎ &1" p.1) = some true
    ∧ (writeDumpF defaultDumper cycleHeap 20 [cyclePtr] 2).map
        (fun p => containsSub "↩︎ &1" p.1) = some false
    ∧ (writeDumpF defaultDumper cycleHeap 20 [cyclePtr] 2).map
        (fun p => containsSub "↩︎ &2" p.1) = some true := by
  exact ⟨by decide, by decide, by decide, by decide⟩

/-- C1 (amended): the reference map is cleared at the start of every render call,
but the id counter is process-global and monotonic: a fresh render's first
back-reference id is the counter's current value — 1 only in the first
id-assigning render of the process (there the claim's `↩︎ &1` does appear), 2 in
the render that follows it, and in general `writeDump` is the composition of a
render started on the *empty* reference map with the inherited counter. -/
theorem refID_global_counter :
    ((writeDumpF defaultDumper cycleHeap 20 [cyclePtr] 1).map
        (fun p => (containsSub "↩︎ &1" p.1, p.2)) = some (true, 2))
    ∧ ((writeDumpF defaultDumper cycleHeap 20 [cyclePtr] 2).map
        (fun p => (containsSub "↩︎ &2" p.1, p.2)) = some (true, 3))
    ∧ (∀ (d : Dumper) (heap : List RVal) (fuel : Nat) (vs : List RVal) (g : Nat),
        writeDumpF d heap fuel vs g
          = (writeValsF d heap fuel vs ⟨[], g⟩).map (fun p => (p.1, p.2.nextID))) := by
  refine ⟨by decide, by decide, fun d heap fuel vs g => ?_⟩
  unfold writeDumpF
  cases writeValsF d heap fuel vs ⟨[], g⟩ <;> rfl

/-! ### C4: determinism of re-rendering -/

/-- An acyclic value with internal sharing: a struct whose two pointer fields
point at the same cell (`x := 7; p := Pair⦃&x, &x⦄`). -/
def pairHeap : List RVal := [.vint 7]

/-- The shared-pointer struct over `pairHeap`. -/
def pairVal : RVal :=
  .vstruct "godump.Pair"
    [("A", true, .vptr "*int" (some 0)), ("B", true, .vptr "*int" (some 0))]

/-- C4: REFUTED as stated — rendering is not a pure function of (value, policy)
for every acyclic value.  The shared-pointer struct `pairVal` is acyclic, yet two
successive render calls (each of which performs exactly the reset `writeDump`
performs) produce different bytes: the back-reference id printed for the second
field embeds the process-global counter, which differs between the calls. -/
theorem shared_pointer_render_differs_cx :
    (writeDumpF defaultDumper pairHeap 20 [pairVal] 1).map Prod.snd = some 2
    ∧ (writeDumpF defaultDumper pairHeap 20 [pairVal] 1).map Prod.fst
        ≠ (writeDumpF defaultDumper pairHeap 20 [pairVal] 2).map Prod.fst := by
  exact ⟨by decide, by decide⟩

/-- The canonical start state used to express state independence. -/
def st0 : RefSt := ⟨[], 1⟩

mutual

/-- `ptrFree v`: the value contains no pointer node anywhere (hence rendering it
never consults or modifies the reference state). -/
def ptrFree : RVal → Bool
  | .vptr _ _ => false
  | .viface _ (some w) => ptrFree w
  | .vstruct _ fields => ptrFreeFields fields
  | .vslice _ (some es) => ptrFreeList es
  | .varray _ es => ptrFreeList es
  | .vmap _ (some es) => ptrFreeEntries es
  | _ => true

/-- `ptrFree` over a list of values. -/
def ptrFreeList : List RVal → Bool
  | [] => true
  | v :: vs => ptrFree v && ptrFreeList vs

/-- `ptrFree` over struct fields. -/
def ptrFreeFields : List (String × Bool × RVal) → Bool
  | [] => true
  | (_, _, v) :: fs => ptrFree v && ptrFreeFields fs

/-- `ptrFree` over map entries. -/
def ptrFreeEntries : List (String × RVal) → Bool
  | [] => true
  | (_, v) :: es => ptrFree v && ptrFreeEntries es

end

/-- State independence of rendering for pointer-free values: the output does not
depend on the incoming reference state, and the state is returned unchanged.
Joint statement over the renderer and its three loops, by induction on fuel. -/
theorem stateIndep (f : Nat) :
    (∀ d heap v c i st, ptrFree v = true →
      printValueF d heap f v c i st
        = (printValueF d heap f v c i st0).map (fun p => (p.1, st)))
    ∧ (∀ d heap fs c i st, ptrFreeFields fs = true →
      fieldsLoopF d heap f fs c i st
        = (fieldsLoopF d heap f fs c i st0).map (fun p => (p.1, st)))
    ∧ (∀ d heap es ea j i st, ptrFreeList es = true →
      sliceLoopF d heap f es ea j i st
        = (sliceLoopF d heap f es ea j i st0).map (fun p => (p.1, st)))
    ∧ (∀ d heap es j i st, ptrFreeEntries es = true →
      mapLoopF d heap f es j i st
        = (mapLoopF d heap f es j i st0).map (fun p => (p.1, st))) := by
  induction f with
  | zero =>
    exact ⟨fun _ _ _ _ _ _ _ => rfl, fun _ _ _ _ _ _ _ => rfl,
      fun _ _ _ _ _ _ _ _ => rfl, fun _ _ _ _ _ _ _ => rfl⟩
  | succ f ih =>
    obtain ⟨ihP, ihQ, ihR, ihS⟩ := ih
    refine ⟨?_, ?_, ?_, ?_⟩
    · intro d heap v c i st hv
      by_cases hg : (i : Int) > d.maxDepth
      · simp [printValueF, hg]
      · cases v with
        | invalid => simp [printValueF, hg]
        | vbool b => simp [printValueF, hg, asStringer, isNilV]
        | vint n => simp [printValueF, hg, asStringer, isNilV]
        | vuint n => simp [printValueF, hg, asStringer, isNilV]
        | vstring s => simp [printValueF, hg, asStringer, isNilV]
        | vchan t addr => simp [printValueF, hg, asStringer]
        | vfunc t isNil =>
          cases isNil <;> simp [printValueF, hg, asStringer, isNilV, typeName]
        | vstringer t m p => simp [printValueF, hg, asStringer]
        | vptr t addr => simp [ptrFree] at hv
        | viface t inner =>
          cases inner with
          | none => simp [printValueF, hg, asStringer, isNilV, typeName]
          | some w =>
            have hw : ptrFree w = true := by simpa [ptrFree] using hv
            simp only [printValueF, hg, if_false, asStringer, isNilV]
            exact ihP d heap w false i st hw
        | vstruct t fields =>
          have hf : ptrFreeFields fields = true := by simpa [ptrFree] using hv
          have hQ := ihQ d heap fields c i st hf
          simp only [printValueF, hg, if_false, asStringer, isNilV]
          rw [hQ]
          cases fieldsLoopF d heap f fields c i st0 with
          | none => rfl
          | some p => rfl
        | vslice t elems =>
          cases elems with
          | none => simp [printValueF, hg, asStringer, isNilV, typeName]
          | some es =>
            have he : ptrFreeList es = true := by simpa [ptrFree] using hv
            have hR := ihR d heap es true 0 i st he
            simp only [printValueF, hg, if_false, asStringer, isNilV]
            rw [hR]
            cases sliceLoopF d heap f es true 0 i st0 with
            | none => rfl
            | some p => rfl
        | varray t es =>
          have he : ptrFreeList es = true := by simpa [ptrFree] using hv
          have hR := ihR d heap es c 0 i st he
          simp only [printValueF, hg, if_false, asStringer, isNilV]
          rw [hR]
          cases sliceLoopF d heap f es c 0 i st0 with
          | none => rfl
          | some p => rfl
        | vbytes t data =>
          cases data with
          | none => simp [printValueF, hg, asStringer, isNilV, typeName]
          | some bs => simp [printValueF, hg, asStringer, isNilV]
        | vmap t entries =>
          cases entries with
          | none => simp [printValueF, hg, asStringer, isNilV, typeName]
          | some es =>
            have he : ptrFreeEntries es = true := by simpa [ptrFree] using hv
            have hS := ihS d heap es 0 i st he
            simp only [printValueF, hg, if_false, asStringer, isNilV]
            rw [hS]
            cases mapLoopF d heap f es 0 i st0 with
            | none => rfl
            | some p => rfl
    · intro d heap fs c i st hf
      cases fs with
      | nil => simp [fieldsLoopF]
      | cons fd rest =>
        obtain ⟨name, exported, fv⟩ := fd
        have hv : ptrFree fv = true := by
          simp [ptrFreeFields, Bool.and_eq_true] at hf; exact hf.1
        have hrest : ptrFreeFields rest = true := by
          simp [ptrFreeFields, Bool.and_eq_true] at hf; exact hf.2
        cases hs : asStringer fv with
        | some s =>
          have hQ := ihQ d heap rest c i st hrest
          simp only [fieldsLoopF, hs]
          rw [hQ]
          cases fieldsLoopF d heap f rest c i st0 with
          | none => rfl
          | some p => rfl
        | none =>
          have hP := ihP d heap fv c (i + 1) st hv
          simp only [fieldsLoopF, hs]
          rw [hP]
          cases hc : printValueF d heap f fv c (i + 1) st0 with
          | none => rfl
          | some p =>
            obtain ⟨o, st1⟩ := p
            have hQ := ihQ d heap rest c i st hrest
            have hQ1 := ihQ d heap rest c i st1 hrest
            simp only [Option.map_some']
            rw [hQ, hQ1]
            cases fieldsLoopF d heap f rest c i st0 with
            | none => rfl
            | some q => rfl
    · intro d heap es ea j i st he
      cases es with
      | nil => simp [sliceLoopF]
      | cons e rest =>
        have hv : ptrFree e = true := by
          simp [ptrFreeList, Bool.and_eq_true] at he; exact he.1
        have hrest : ptrFreeList rest = true := by
          simp [ptrFreeList, Bool.and_eq_true] at he; exact he.2
        by_cases hj : (j : Int) ≥ d.maxItems
        · simp [sliceLoopF, hj]
        · have hP := ihP d heap e ea (i + 1) st hv
          simp only [sliceLoopF, hj, if_false]
          rw [hP]
          cases hc : printValueF d heap f e ea (i + 1) st0 with
          | none => rfl
          | some p =>
            obtain ⟨o, st1⟩ := p
            have hR := ihR d heap rest ea (j + 1) i st hrest
            have hR1 := ihR d heap rest ea (j + 1) i st1 hrest
            simp only [Option.map_some']
            rw [hR, hR1]
            cases sliceLoopF d heap f rest ea (j + 1) i st0 with
            | none => rfl
            | some q => rfl
    · intro d heap es j i st he
      cases es with
      | nil => simp [mapLoopF]
      | cons e rest =>
        obtain ⟨k, val⟩ := e
        have hv : ptrFree val = true := by
          simp [ptrFreeEntries, Bool.and_eq_true] at he; exact he.1
        have hrest : ptrFreeEntries rest = true := by
          simp [ptrFreeEntries, Bool.and_eq_true] at he; exact he.2
        by_cases hj : (j : Int) ≥ d.maxItems
        · simp [mapLoopF, hj]
        · have hP := ihP d heap val false (i + 1) st hv
          simp only [mapLoopF, hj, if_false]
          rw [hP]
          cases hc : printValueF d heap f val false (i + 1) st0 with
          | none => rfl
          | some p =>
            obtain ⟨o, st1⟩ := p
            have hS := ihS d heap rest (j + 1) i st hrest
            have hS1 := ihS d heap rest (j + 1) i st1 hrest
            simp only [Option.map_some']
            rw [hS, hS1]
            cases mapLoopF d heap f rest (j + 1) i st0 with
            | none => rfl
            | some q => rfl

/-- The address column of the reference map: which addresses have been
registered, irrespective of the ids assigned to them.  `writeDump` resets the
map itself, so two renders of the same value register the same addresses in the
same order — only the ids (drawn from the never-reset counter) differ. -/
def refKeys (st : RefSt) : List Nat := st.refMap.map Prod.fst

/-- Whether a rendering contains the back-reference arrow `↩` (U+21A9).  The
renderer writes this character exactly when a registered pointer is revisited
(the `↩︎ &<id>` marker), so a marker-free output witnesses that no address was
rendered twice during that call. -/
def hasBackref (s : String) : Bool :=
  s.toList.any (fun c => c == '↩')

theorem hasBackref_append (a b : String) :
    hasBackref (a ++ b) = (hasBackref a || hasBackref b) := by
  simp [hasBackref, toList_append]

/-- Outputs of two renders that may differ only in reference ids: both runs run
out of fuel together, or both succeed with reference maps registering the same
addresses, agreeing on back-reference presence, and byte-identical text whenever
no back-reference occurred. -/
def outRel : Option (String × RefSt) → Option (String × RefSt) → Prop
  | none, none => True
  | some (s, t), some (s2, t2) =>
      refKeys t = refKeys t2 ∧ hasBackref s = hasBackref s2
        ∧ (hasBackref s = false → s = s2)
  | _, _ => False

theorem outRel_same (s : String) {st st2 : RefSt} (hk : refKeys st = refKeys st2) :
    outRel (some (s, st)) (some (s, st2)) :=
  ⟨hk, rfl, fun _ => rfl⟩

theorem outRel_backref (id id2 : Nat) {st st2 : RefSt}
    (hk : refKeys st = refKeys st2) :
    outRel (some ("↩︎ &" ++ toString id, st)) (some ("↩︎ &" ++ toString id2, st2)) := by
  have hm : hasBackref "↩︎ &" = true := by decide
  refine ⟨hk, ?_, ?_⟩
  · rw [hasBackref_append, hasBackref_append, hm]
    rfl
  · intro h0
    rw [hasBackref_append, hm] at h0
    simp at h0

theorem outRel_wrap2 (p q r : String) {s s2 : String} {t t2 : RefSt}
    (hb : hasBackref s = hasBackref s2) (he : hasBackref s = false → s = s2)
    (hk : refKeys t = refKeys t2) :
    outRel (some (p ++ s ++ q ++ r, t)) (some (p ++ s2 ++ q ++ r, t2)) := by
  refine ⟨hk, ?_, ?_⟩
  · simp only [hasBackref_append, hb]
  · intro h0
    simp only [hasBackref_append, Bool.or_eq_false_iff] at h0
    rw [he h0.1.1.2]

theorem outRel_compose (p q : String) {s s2 u u2 : String} {t t2 : RefSt}
    (hb : hasBackref s = hasBackref s2) (he : hasBackref s = false → s = s2)
    (hbu : hasBackref u = hasBackref u2) (heu : hasBackref u = false → u = u2)
    (hk : refKeys t = refKeys t2) :
    outRel (some (p ++ s ++ q ++ u, t)) (some (p ++ s2 ++ q ++ u2, t2)) := by
  refine ⟨hk, ?_, ?_⟩
  · simp only [hasBackref_append, hb, hbu]
  · intro h0
    simp only [hasBackref_append, Bool.or_eq_false_iff] at h0
    rw [he h0.1.1.2, heu h0.2]

theorem outRel_compose0 (q : String) {s s2 u u2 : String} {t t2 : RefSt}
    (hb : hasBackref s = hasBackref s2) (he : hasBackref s = false → s = s2)
    (hbu : hasBackref u = hasBackref u2) (heu : hasBackref u = false → u = u2)
    (hk : refKeys t = refKeys t2) :
    outRel (some (s ++ q ++ u, t)) (some (s2 ++ q ++ u2, t2)) := by
  refine ⟨hk, ?_, ?_⟩
  · simp only [hasBackref_append, hb, hbu]
  · intro h0
    simp only [hasBackref_append, Bool.or_eq_false_iff] at h0
    rw [he h0.1.1, heu h0.2]

/-- Association lists with the same key column succeed and fail together on
lookup (only the stored values — the ids — can differ). -/
theorem lookup_isSome_of_keys (a : Nat) :
    ∀ (l l2 : List (Nat × Nat)), l.map Prod.fst = l2.map Prod.fst →
      (l.lookup a).isSome = (l2.lookup a).isSome := by
  intro l
  induction l with
  | nil =>
    intro l2 h
    cases l2 with
    | nil => rfl
    | cons q r2 => exact absurd h (by simp)
  | cons p r ih =>
    intro l2 h
    cases l2 with
    | nil => exact absurd h (by simp)
    | cons q r2 =>
      obtain ⟨k, v⟩ := p
      obtain ⟨k2, v2⟩ := q
      simp at h
      obtain ⟨hkk, hr⟩ := h
      subst hkk
      simp only [List.lookup]
      cases hak : a == k with
      | true => rfl
      | false => exact ih r2 hr

mutual

/-- `mapFree v`: the value contains no non-nil map anywhere.  (In Go the entry
order of a non-nil map is drawn from `v.MapKeys()`, whose iteration order is
randomized per call; the model fixes one entry order per abstract map value, so
cross-call byte-identity is only claimed for map-free values.) -/
def mapFree : RVal → Bool
  | .vmap _ (some _) => false
  | .viface _ (some w) => mapFree w
  | .vstruct _ fields => mapFreeFields fields
  | .vslice _ (some es) => mapFreeList es
  | .varray _ es => mapFreeList es
  | _ => true

/-- `mapFree` over a list of values. -/
def mapFreeList : List RVal → Bool
  | [] => true
  | v :: vs => mapFree v && mapFreeList vs

/-- `mapFree` over struct fields. -/
def mapFreeFields : List (String × Bool × RVal) → Bool
  | [] => true
  | (_, _, v) :: fs => mapFree v && mapFreeFields fs

end

/-- Two renders of the same value whose incoming reference maps register the
same addresses are related by `outRel`: they run out of fuel together, register
the same addresses, agree on whether a back-reference marker occurs, and are
byte-identical when none does.  Joint statement over the renderer and its three
loops, by induction on fuel; pointer-free subtrees are dispatched through
`stateIndep`. -/
theorem markIndep (f : Nat) :
    (∀ d heap v c i st st2, refKeys st = refKeys st2 →
      outRel (printValueF d heap f v c i st) (printValueF d heap f v c i st2))
    ∧ (∀ d heap fs c i st st2, refKeys st = refKeys st2 →
      outRel (fieldsLoopF d heap f fs c i st) (fieldsLoopF d heap f fs c i st2))
    ∧ (∀ d heap es ea j i st st2, refKeys st = refKeys st2 →
      outRel (sliceLoopF d heap f es ea j i st) (sliceLoopF d heap f es ea j i st2))
    ∧ (∀ d heap es j i st st2, refKeys st = refKeys st2 →
      outRel (mapLoopF d heap f es j i st) (mapLoopF d heap f es j i st2)) := by
  induction f with
  | zero =>
    exact ⟨fun _ _ _ _ _ _ _ _ => trivial, fun _ _ _ _ _ _ _ _ => trivial,
      fun _ _ _ _ _ _ _ _ _ => trivial, fun _ _ _ _ _ _ _ _ => trivial⟩
  | succ f ih =>
    obtain ⟨ihP, ihQ, ihR, ihS⟩ := ih
    refine ⟨?_, ?_, ?_, ?_⟩
    · intro d heap v c i st st2 hk
      by_cases hg : (i : Int) > d.maxDepth
      · have e1 : printValueF d heap (f + 1) v c i st = some ("... (max depth)", st) := by
          simp [printValueF, hg]
        have e2 : printValueF d heap (f + 1) v c i st2 = some ("... (max depth)", st2) := by
          simp [printValueF, hg]
        rw [e1, e2]
        exact outRel_same _ hk
      · by_cases hpf : ptrFree v = true
        · have h1 := (stateIndep (f + 1)).1 d heap v c i st hpf
          have h2 := (stateIndep (f + 1)).1 d heap v c i st2 hpf
          rw [h1, h2]
          cases printValueF d heap (f + 1) v c i st0 with
          | none => exact trivial
          | some p => exact outRel_same p.1 hk
        · cases v with
          | invalid => exact absurd rfl hpf
          | vbool b => exact absurd rfl hpf
          | vint n => exact absurd rfl hpf
          | vuint n => exact absurd rfl hpf
          | vstring s => exact absurd rfl hpf
          | vchan t addr => exact absurd rfl hpf
          | vfunc t isNil => exact absurd rfl hpf
          | vstringer t m p => exact absurd rfl hpf
          | vbytes t data => exact absurd rfl hpf
          | vptr t addr =>
            cases addr with
            | none =>
              have e1 : printValueF d heap (f + 1) (.vptr t none) c i st
                  = some (t ++ "(nil)", st) := by
                simp [printValueF, hg, asStringer, isNilV, typeName]
              have e2 : printValueF d heap (f + 1) (.vptr t none) c i st2
                  = some (t ++ "(nil)", st2) := by
                simp [printValueF, hg, asStringer, isNilV, typeName]
              rw [e1, e2]
              exact outRel_same _ hk
            | some a =>
              cases c with
              | false =>
                cases hp : heap[a]? with
                | none =>
                  have e1 : printValueF d heap (f + 1) (.vptr t (some a)) false i st
                      = some ("<invalid>", st) := by
                    simp [printValueF, hg, hp, asStringer, isNilV]
                  have e2 : printValueF d heap (f + 1) (.vptr t (some a)) false i st2
                      = some ("<invalid>", st2) := by
                    simp [printValueF, hg, hp, asStringer, isNilV]
                  rw [e1, e2]
                  exact outRel_same _ hk
                | some pv =>
                  have e1 : printValueF d heap (f + 1) (.vptr t (some a)) false i st
                      = printValueF d heap f pv true i st := by
                    simp [printValueF, hg, hp, asStringer, isNilV]
                  have e2 : printValueF d heap (f + 1) (.vptr t (some a)) false i st2
                      = printValueF d heap f pv true i st2 := by
                    simp [printValueF, hg, hp, asStringer, isNilV]
                  rw [e1, e2]
                  exact ihP d heap pv true i st st2 hk
              | true =>
                have hlk := lookup_isSome_of_keys a st.refMap st2.refMap hk
                cases hL : st.refMap.lookup a with
                | some id =>
                  cases hR : st2.refMap.lookup a with
                  | none => rw [hL, hR] at hlk; simp at hlk
                  | some id2 =>
                    have e1 : printValueF d heap (f + 1) (.vptr t (some a)) true i st
                        = some ("↩︎ &" ++ toString id, st) := by
                      simp [printValueF, hg, hL, asStringer, isNilV]
                    have e2 : printValueF d heap (f + 1) (.vptr t (some a)) true i st2
                        = some ("↩︎ &" ++ toString id2, st2) := by
                      simp [printValueF, hg, hR, asStringer, isNilV]
                    rw [e1, e2]
                    exact outRel_backref id id2 hk
                | none =>
                  cases hR : st2.refMap.lookup a with
                  | some id2 => rw [hL, hR] at hlk; simp at hlk
                  | none =>
                    have hk2 : refKeys (⟨(a, st.nextID) :: st.refMap, st.nextID + 1⟩ : RefSt)
                        = refKeys (⟨(a, st2.nextID) :: st2.refMap, st2.nextID + 1⟩ : RefSt) := by
                      simp only [refKeys] at hk
                      simp [refKeys, hk]
                    cases hp : heap[a]? with
                    | none =>
                      have e1 : printValueF d heap (f + 1) (.vptr t (some a)) true i st
                          = some ("<invalid>",
                              ⟨(a, st.nextID) :: st.refMap, st.nextID + 1⟩) := by
                        simp [printValueF, hg, hL, hp, asStringer, isNilV]
                      have e2 : printValueF d heap (f + 1) (.vptr t (some a)) true i st2
                          = some ("<invalid>",
                              ⟨(a, st2.nextID) :: st2.refMap, st2.nextID + 1⟩) := by
                        simp [printValueF, hg, hR, hp, asStringer, isNilV]
                      rw [e1, e2]
                      exact outRel_same _ hk2
                    | some pv =>
                      have e1 : printValueF d heap (f + 1) (.vptr t (some a)) true i st
                          = printValueF d heap f pv true i
                              ⟨(a, st.nextID) :: st.refMap, st.nextID + 1⟩ := by
                        simp [printValueF, hg, hL, hp, asStringer, isNilV]
                      have e2 : printValueF d heap (f + 1) (.vptr t (some a)) true i st2
                          = printValueF d heap f pv true i
                              ⟨(a, st2.nextID) :: st2.refMap, st2.nextID + 1⟩ := by
                        simp [printValueF, hg, hR, hp, asStringer, isNilV]
                      rw [e1, e2]
                      exact ihP d heap pv true i _ _ hk2
          | viface t inner =>
            cases inner with
            | none => exact absurd rfl hpf
            | some w =>
              have e1 : printValueF d heap (f + 1) (.viface t (some w)) c i st
                  = printValueF d heap f w false i st := by
                simp [printValueF, hg, asStringer, isNilV]
              have e2 : printValueF d heap (f + 1) (.viface t (some w)) c i st2
                  = printValueF d heap f w false i st2 := by
                simp [printValueF, hg, asStringer, isNilV]
              rw [e1, e2]
              exact ihP d heap w false i st st2 hk
          | vstruct t fields =>
            have h2 := ihQ d heap fields c i st st2 hk
            cases hL : fieldsLoopF d heap f fields c i st with
            | none =>
              cases hR : fieldsLoopF d heap f fields c i st2 with
              | none =>
                have e1 : printValueF d heap (f + 1) (.vstruct t fields) c i st = none := by
                  simp [printValueF, hg, hL, asStringer, isNilV]
                have e2 : printValueF d heap (f + 1) (.vstruct t fields) c i st2 = none := by
                  simp [printValueF, hg, hR, asStringer, isNilV]
                rw [e1, e2]
                exact trivial
              | some p =>
                obtain ⟨body2, stb2⟩ := p
                rw [hL, hR] at h2
                exact False.elim h2
            | some p =>
              obtain ⟨body, stb⟩ := p
              cases hR : fieldsLoopF d heap f fields c i st2 with
              | none =>
                rw [hL, hR] at h2
                exact False.elim h2
              | some p2 =>
                obtain ⟨body2, stb2⟩ := p2
                rw [hL, hR] at h2
                obtain ⟨hkb, hbb, heb⟩ := h2
                have e1 : printValueF d heap (f + 1) (.vstruct t fields) c i st
                    = some ("#" ++ t ++ " \x7b" ++ "\n" ++ body
                        ++ indentStr i ++ "\x7d", stb) := by
                  simp [printValueF, hg, hL, asStringer, isNilV]
                have e2 : printValueF d heap (f + 1) (.vstruct t fields) c i st2
                    = some ("#" ++ t ++ " \x7b" ++ "\n" ++ body2
                        ++ indentStr i ++ "\x7d", stb2) := by
                  simp [printValueF, hg, hR, asStringer, isNilV]
                rw [e1, e2]
                exact outRel_wrap2 ("#" ++ t ++ " \x7b" ++ "\n") (indentStr i) "\x7d"
                  hbb heb hkb
          | vslice t elems =>
            cases elems with
            | none => exact absurd rfl hpf
            | some es =>
              have h2 := ihR d heap es true 0 i st st2 hk
              cases hL : sliceLoopF d heap f es true 0 i st with
              | none =>
                cases hR : sliceLoopF d heap f es true 0 i st2 with
                | none =>
                  have e1 : printValueF d heap (f + 1) (.vslice t (some es)) c i st
                      = none := by
                    simp [printValueF, hg, hL, asStringer, isNilV]
                  have e2 : printValueF d heap (f + 1) (.vslice t (some es)) c i st2
                      = none := by
                    simp [printValueF, hg, hR, asStringer, isNilV]
                  rw [e1, e2]
                  exact trivial
                | some p =>
                  obtain ⟨body2, stb2⟩ := p
                  rw [hL, hR] at h2
                  exact False.elim h2
              | some p =>
                obtain ⟨body, stb⟩ := p
                cases hR : sliceLoopF d heap f es true 0 i st2 with
                | none =>
                  rw [hL, hR] at h2
                  exact False.elim h2
                | some p2 =>
                  obtain ⟨body2, stb2⟩ := p2
                  rw [hL, hR] at h2
                  obtain ⟨hkb, hbb, heb⟩ := h2
                  have e1 : printValueF d heap (f + 1) (.vslice t (some es)) c i st
                      = some ("[" ++ "\n" ++ body ++ indentStr i ++ "]", stb) := by
                    simp [printValueF, hg, hL, asStringer, isNilV]
                  have e2 : printValueF d heap (f + 1) (.vslice t (some es)) c i st2
                      = some ("[" ++ "\n" ++ body2 ++ indentStr i ++ "]", stb2) := by
                    simp [printValueF, hg, hR, asStringer, isNilV]
                  rw [e1, e2]
                  exact outRel_wrap2 ("[" ++ "\n") (indentStr i) "]" hbb heb hkb
          | varray t es =>
            have h2 := ihR d heap es c 0 i st st2 hk
            cases hL : sliceLoopF d heap f es c 0 i st with
            | none =>
              cases hR : sliceLoopF d heap f es c 0 i st2 with
              | none =>
                have e1 : printValueF d heap (f + 1) (.varray t es) c i st = none := by
                  simp [printValueF, hg, hL, asStringer, isNilV]
                have e2 : printValueF d heap (f + 1) (.varray t es) c i st2 = none := by
                  simp [printValueF, hg, hR, asStringer, isNilV]
                rw [e1, e2]
                exact trivial
              | some p =>
                obtain ⟨body2, stb2⟩ := p
                rw [hL, hR] at h2
                exact False.elim h2
            | some p =>
              obtain ⟨body, stb⟩ := p
              cases hR : sliceLoopF d heap f es c 0 i st2 with
              | none =>
                rw [hL, hR] at h2
                exact False.elim h2
              | some p2 =>
                obtain ⟨body2, stb2⟩ := p2
                rw [hL, hR] at h2
                obtain ⟨hkb, hbb, heb⟩ := h2
                have e1 : printValueF d heap (f + 1) (.varray t es) c i st
                    = some ("[" ++ "\n" ++ body ++ indentStr i ++ "]", stb) := by
                  simp [printValueF, hg, hL, asStringer, isNilV]
                have e2 : printValueF d heap (f + 1) (.varray t es) c i st2
                    = some ("[" ++ "\n" ++ body2 ++ indentStr i ++ "]", stb2) := by
                  simp [printValueF, hg, hR, asStringer, isNilV]
                rw [e1, e2]
                exact outRel_wrap2 ("[" ++ "\n") (indentStr i) "]" hbb heb hkb
          | vmap t entries =>
            cases entries with
            | none => exact absurd rfl hpf
            | some es =>
              have h2 := ihS d heap es 0 i st st2 hk
              cases hL : mapLoopF d heap f es 0 i st with
              | none =>
                cases hR : mapLoopF d heap f es 0 i st2 with
                | none =>
                  have e1 : printValueF d heap (f + 1) (.vmap t (some es)) c i st
                      = none := by
                    simp [printValueF, hg, hL, asStringer, isNilV]
                  have e2 : printValueF d heap (f + 1) (.vmap t (some es)) c i st2
                      = none := by
                    simp [printValueF, hg, hR, asStringer, isNilV]
                  rw [e1, e2]
                  exact trivial
                | some p =>
                  obtain ⟨body2, stb2⟩ := p
                  rw [hL, hR] at h2
                  exact False.elim h2
              | some p =>
                obtain ⟨body, stb⟩ := p
                cases hR : mapLoopF d heap f es 0 i st2 with
                | none =>
                  rw [hL, hR] at h2
                  exact False.elim h2
                | some p2 =>
                  obtain ⟨body2, stb2⟩ := p2
                  rw [hL, hR] at h2
                  obtain ⟨hkb, hbb, heb⟩ := h2
                  have e1 : printValueF d heap (f + 1) (.vmap t (some es)) c i st
                      = some ("\x7b" ++ "\n" ++ body ++ indentStr i ++ "\x7d", stb) := by
                    simp [printValueF, hg, hL, asStringer, isNilV]
                  have e2 : printValueF d heap (f + 1) (.vmap t (some es)) c i st2
                      = some ("\x7b" ++ "\n" ++ body2 ++ indentStr i ++ "\x7d", stb2) := by
                    simp [printValueF, hg, hR, asStringer, isNilV]
                  rw [e1, e2]
                  exact outRel_wrap2 ("\x7b" ++ "\n") (indentStr i) "\x7d" hbb heb hkb
    · intro d heap fs c i st st2 hk
      cases fs with
      | nil =>
        have e1 : fieldsLoopF d heap (f + 1) [] c i st = some ("", st) := by
          simp [fieldsLoopF]
        have e2 : fieldsLoopF d heap (f + 1) [] c i st2 = some ("", st2) := by
          simp [fieldsLoopF]
        rw [e1, e2]
        exact outRel_same _ hk
      | cons fd rest =>
        obtain ⟨name, exported, fv⟩ := fd
        cases hs : asStringer fv with
        | some s =>
          have h2 := ihQ d heap rest c i st st2 hk
          cases hL : fieldsLoopF d heap f rest c i st with
          | none =>
            cases hR : fieldsLoopF d heap f rest c i st2 with
            | none =>
              have e1 : fieldsLoopF d heap (f + 1) ((name, exported, fv) :: rest) c i st
                  = none := by
                simp [fieldsLoopF, hs, hL]
              have e2 : fieldsLoopF d heap (f + 1) ((name, exported, fv) :: rest) c i st2
                  = none := by
                simp [fieldsLoopF, hs, hR]
              rw [e1, e2]
              exact trivial
            | some p =>
              obtain ⟨tail2, stt2⟩ := p
              rw [hL, hR] at h2
              exact False.elim h2
          | some p =>
            obtain ⟨tail, stt⟩ := p
            cases hR : fieldsLoopF d heap f rest c i st2 with
            | none =>
              rw [hL, hR] at h2
              exact False.elim h2
            | some p2 =>
              obtain ⟨tail2, stt2⟩ := p2
              rw [hL, hR] at h2
              obtain ⟨hkt, hbt, het⟩ := h2
              have e1 : fieldsLoopF d heap (f + 1) ((name, exported, fv) :: rest) c i st
                  = some ((indentStr (i + 1) ++ (if exported then "+" else "-") ++ name
                      ++ "\t=> ") ++ s ++ "\n" ++ tail, stt) := by
                simp [fieldsLoopF, hs, hL]
              have e2 : fieldsLoopF d heap (f + 1) ((name, exported, fv) :: rest) c i st2
                  = some ((indentStr (i + 1) ++ (if exported then "+" else "-") ++ name
                      ++ "\t=> ") ++ s ++ "\n" ++ tail2, stt2) := by
                simp [fieldsLoopF, hs, hR]
              rw [e1, e2]
              exact outRel_compose
                (indentStr (i + 1) ++ (if exported then "+" else "-") ++ name ++ "\t=> ")
                "\n" rfl (fun _ => rfl) hbt het hkt
        | none =>
          have h1 := ihP d heap fv c (i + 1) st st2 hk
          cases hL1 : printValueF d heap f fv c (i + 1) st with
          | none =>
            cases hR1 : printValueF d heap f fv c (i + 1) st2 with
            | none =>
              have e1 : fieldsLoopF d heap (f + 1) ((name, exported, fv) :: rest) c i st
                  = none := by
                simp [fieldsLoopF, hs, hL1]
              have e2 : fieldsLoopF d heap (f + 1) ((name, exported, fv) :: rest) c i st2
                  = none := by
                simp [fieldsLoopF, hs, hR1]
              rw [e1, e2]
              exact trivial
            | some p =>
              obtain ⟨o2, so2⟩ := p
              rw [hL1, hR1] at h1
              exact False.elim h1
          | some p =>
            obtain ⟨o1, so1⟩ := p
            cases hR1 : printValueF d heap f fv c (i + 1) st2 with
            | none =>
              rw [hL1, hR1] at h1
              exact False.elim h1
            | some p2 =>
              obtain ⟨o2, so2⟩ := p2
              rw [hL1, hR1] at h1
              obtain ⟨hko, hbo, heo⟩ := h1
              have h2 := ihQ d heap rest c i so1 so2 hko
              cases hL2 : fieldsLoopF d heap f rest c i so1 with
              | none =>
                cases hR2 : fieldsLoopF d heap f rest c i so2 with
                | none =>
                  have e1 : fieldsLoopF d heap (f + 1) ((name, exported, fv) :: rest) c i st
                      = none := by
                    simp [fieldsLoopF, hs, hL1, hL2]
                  have e2 : fieldsLoopF d heap (f + 1) ((name, exported, fv) :: rest) c i st2
                      = none := by
                    simp [fieldsLoopF, hs, hR1, hR2]
                  rw [e1, e2]
                  exact trivial
                | some q =>
                  obtain ⟨tq, sq⟩ := q
                  rw [hL2, hR2] at h2
                  exact False.elim h2
              | some q =>
                obtain ⟨tail, stt⟩ := q
                cases hR2 : fieldsLoopF d heap f rest c i so2 with
                | none =>
                  rw [hL2, hR2] at h2
                  exact False.elim h2
                | some q2 =>
                  obtain ⟨tail2, stt2⟩ := q2
                  rw [hL2, hR2] at h2
                  obtain ⟨hkt, hbt, het⟩ := h2
                  have e1 : fieldsLoopF d heap (f + 1) ((name, exported, fv) :: rest) c i st
                      = some ((indentStr (i + 1) ++ (if exported then "+" else "-") ++ name
                          ++ "\t=> ") ++ o1 ++ "\n" ++ tail, stt) := by
                    simp [fieldsLoopF, hs, hL1, hL2]
                  have e2 : fieldsLoopF d heap (f + 1) ((name, exported, fv) :: rest) c i st2
                      = some ((indentStr (i + 1) ++ (if exported then "+" else "-") ++ name
                          ++ "\t=> ") ++ o2 ++ "\n" ++ tail2, stt2) := by
                    simp [fieldsLoopF, hs, hR1, hR2]
                  rw [e1, e2]
                  exact outRel_compose
                    (indentStr (i + 1) ++ (if exported then "+" else "-") ++ name ++ "\t=> ")
                    "\n" hbo heo hbt het hkt
    · intro d heap es ea j i st st2 hk
      cases es with
      | nil =>
        have e1 : sliceLoopF d heap (f + 1) [] ea j i st = some ("", st) := by
          simp [sliceLoopF]
        have e2 : sliceLoopF d heap (f + 1) [] ea j i st2 = some ("", st2) := by
          simp [sliceLoopF]
        rw [e1, e2]
        exact outRel_same _ hk
      | cons e rest =>
        by_cases hj : (j : Int) ≥ d.maxItems
        · have e1 : sliceLoopF d heap (f + 1) (e :: rest) ea j i st
              = some (indentStr (i + 1) ++ "... (truncated)\n", st) := by
            simp [sliceLoopF, hj]
          have e2 : sliceLoopF d heap (f + 1) (e :: rest) ea j i st2
              = some (indentStr (i + 1) ++ "... (truncated)\n", st2) := by
            simp [sliceLoopF, hj]
          rw [e1, e2]
          exact outRel_same _ hk
        · have h1 := ihP d heap e ea (i + 1) st st2 hk
          cases hL1 : printValueF d heap f e ea (i + 1) st with
          | none =>
            cases hR1 : printValueF d heap f e ea (i + 1) st2 with
            | none =>
              have e1 : sliceLoopF d heap (f + 1) (e :: rest) ea j i st = none := by
                simp [sliceLoopF, hj, hL1]
              have e2 : sliceLoopF d heap (f + 1) (e :: rest) ea j i st2 = none := by
                simp [sliceLoopF, hj, hR1]
              rw [e1, e2]
              exact trivial
            | some p =>
              obtain ⟨o2, so2⟩ := p
              rw [hL1, hR1] at h1
              exact False.elim h1
          | some p =>
            obtain ⟨o1, so1⟩ := p
            cases hR1 : printValueF d heap f e ea (i + 1) st2 with
            | none =>
              rw [hL1, hR1] at h1
              exact False.elim h1
            | some p2 =>
              obtain ⟨o2, so2⟩ := p2
              rw [hL1, hR1] at h1
              obtain ⟨hko, hbo, heo⟩ := h1
              have h2 := ihR d heap rest ea (j + 1) i so1 so2 hko
              cases hL2 : sliceLoopF d heap f rest ea (j + 1) i so1 with
              | none =>
                cases hR2 : sliceLoopF d heap f rest ea (j + 1) i so2 with
                | none =>
                  have e1 : sliceLoopF d heap (f + 1) (e :: rest) ea j i st = none := by
                    simp [sliceLoopF, hj, hL1, hL2]
                  have e2 : sliceLoopF d heap (f + 1) (e :: rest) ea j i st2 = none := by
                    simp [sliceLoopF, hj, hR1, hR2]
                  rw [e1, e2]
                  exact trivial
                | some q =>
                  obtain ⟨tq, sq⟩ := q
                  rw [hL2, hR2] at h2
                  exact False.elim h2
              | some q =>
                obtain ⟨tail, stt⟩ := q
                cases hR2 : sliceLoopF d heap f rest ea (j + 1) i so2 with
                | none =>
                  rw [hL2, hR2] at h2
                  exact False.elim h2
                | some q2 =>
                  obtain ⟨tail2, stt2⟩ := q2
                  rw [hL2, hR2] at h2
                  obtain ⟨hkt, hbt, het⟩ := h2
                  have e1 : sliceLoopF d heap (f + 1) (e :: rest) ea j i st
                      = some ((indentStr (i + 1) ++ toString j ++ " => ")
                          ++ o1 ++ "\n" ++ tail, stt) := by
                    simp [sliceLoopF, hj, hL1, hL2]
                  have e2 : sliceLoopF d heap (f + 1) (e :: rest) ea j i st2
                      = some ((indentStr (i + 1) ++ toString j ++ " => ")
                          ++ o2 ++ "\n" ++ tail2, stt2) := by
                    simp [sliceLoopF, hj, hR1, hR2]
                  rw [e1, e2]
                  exact outRel_compose (indentStr (i + 1) ++ toString j ++ " => ") "\n"
                    hbo heo hbt het hkt
    · intro d heap es j i st st2 hk
      cases es with
      | nil =>
        have e1 : mapLoopF d heap (f + 1) [] j i st = some ("", st) := by
          simp [mapLoopF]
        have e2 : mapLoopF d heap (f + 1) [] j i st2 = some ("", st2) := by
          simp [mapLoopF]
        rw [e1, e2]
        exact outRel_same _ hk
      | cons e rest =>
        obtain ⟨k, val⟩ := e
        by_cases hj : (j : Int) ≥ d.maxItems
        · have e1 : mapLoopF d heap (f + 1) ((k, val) :: rest) j i st
              = some (indentStr (i + 1) ++ "... (truncated)", st) := by
            simp [mapLoopF, hj]
          have e2 : mapLoopF d heap (f + 1) ((k, val) :: rest) j i st2
              = some (indentStr (i + 1) ++ "... (truncated)", st2) := by
            simp [mapLoopF, hj]
          rw [e1, e2]
          exact outRel_same _ hk
        · have h1 := ihP d heap val false (i + 1) st st2 hk
          cases hL1 : printValueF d heap f val false (i + 1) st with
          | none =>
            cases hR1 : printValueF d heap f val false (i + 1) st2 with
            | none =>
              have e1 : mapLoopF d heap (f + 1) ((k, val) :: rest) j i st = none := by
                simp [mapLoopF, hj, hL1]
              have e2 : mapLoopF d heap (f + 1) ((k, val) :: rest) j i st2 = none := by
                simp [mapLoopF, hj, hR1]
              rw [e1, e2]
              exact trivial
            | some p =>
              obtain ⟨o2, so2⟩ := p
              rw [hL1, hR1] at h1
              exact False.elim h1
          | some p =>
            obtain ⟨o1, so1⟩ := p
            cases hR1 : printValueF d heap f val false (i + 1) st2 with
            | none =>
              rw [hL1, hR1] at h1
              exact False.elim h1
            | some p2 =>
              obtain ⟨o2, so2⟩ := p2
              rw [hL1, hR1] at h1
              obtain ⟨hko, hbo, heo⟩ := h1
              have h2 := ihS d heap rest (j + 1) i so1 so2 hko
              cases hL2 : mapLoopF d heap f rest (j + 1) i so1 with
              | none =>
                cases hR2 : mapLoopF d heap f rest (j + 1) i so2 with
                | none =>
                  have e1 : mapLoopF d heap (f + 1) ((k, val) :: rest) j i st = none := by
                    simp [mapLoopF, hj, hL1, hL2]
                  have e2 : mapLoopF d heap (f + 1) ((k, val) :: rest) j i st2 = none := by
                    simp [mapLoopF, hj, hR1, hR2]
                  rw [e1, e2]
                  exact trivial
                | some q =>
                  obtain ⟨tq, sq⟩ := q
                  rw [hL2, hR2] at h2
                  exact False.elim h2
              | some q =>
                obtain ⟨tail, stt⟩ := q
                cases hR2 : mapLoopF d heap f rest (j + 1) i so2 with
                | none =>
                  rw [hL2, hR2] at h2
                  exact False.elim h2
                | some q2 =>
                  obtain ⟨tail2, stt2⟩ := q2
                  rw [hL2, hR2] at h2
                  obtain ⟨hkt, hbt, het⟩ := h2
                  have e1 : mapLoopF d heap (f + 1) ((k, val) :: rest) j i st
                      = some ((indentStr (i + 1) ++ " " ++ k ++ " => ")
                          ++ o1 ++ "\n" ++ tail, stt) := by
                    simp [mapLoopF, hj, hL1, hL2]
                  have e2 : mapLoopF d heap (f + 1) ((k, val) :: rest) j i st2
                      = some ((indentStr (i + 1) ++ " " ++ k ++ " => ")
                          ++ o2 ++ "\n" ++ tail2, stt2) := by
                    simp [mapLoopF, hj, hR1, hR2]
                  rw [e1, e2]
                  exact outRel_compose (indentStr (i + 1) ++ " " ++ k ++ " => ") "\n"
                    hbo heo hbt het hkt

/-- `outRel` lifts from the renderer to the `writeDump` body: the per-value loop
threads the reference state, composing the per-value outputs. -/
theorem writeValsRel (d : Dumper) (heap : List RVal) (fuel : Nat) :
    ∀ (vs : List RVal) (st st2 : RefSt), refKeys st = refKeys st2 →
      outRel (writeValsF d heap fuel vs st) (writeValsF d heap fuel vs st2) := by
  intro vs
  induction vs with
  | nil =>
    intro st st2 hk
    exact ⟨hk, rfl, fun _ => rfl⟩
  | cons w rest ihw =>
    intro st st2 hk
    have h1 := (markIndep fuel).1 d heap w (makeAddressable w) 0 st st2 hk
    cases hL1 : printValueF d heap fuel w (makeAddressable w) 0 st with
    | none =>
      cases hR1 : printValueF d heap fuel w (makeAddressable w) 0 st2 with
      | none =>
        have e1 : writeValsF d heap fuel (w :: rest) st = none := by
          simp [writeValsF, hL1]
        have e2 : writeValsF d heap fuel (w :: rest) st2 = none := by
          simp [writeValsF, hR1]
        rw [e1, e2]
        exact trivial
      | some p =>
        obtain ⟨o2, so2⟩ := p
        rw [hL1, hR1] at h1
        exact False.elim h1
    | some p =>
      obtain ⟨o1, so1⟩ := p
      cases hR1 : printValueF d heap fuel w (makeAddressable w) 0 st2 with
      | none =>
        rw [hL1, hR1] at h1
        exact False.elim h1
      | some p2 =>
        obtain ⟨o2, so2⟩ := p2
        rw [hL1, hR1] at h1
        obtain ⟨hko, hbo, heo⟩ := h1
        have h2 := ihw so1 so2 hko
        cases hL2 : writeValsF d heap fuel rest so1 with
        | none =>
          cases hR2 : writeValsF d heap fuel rest so2 with
          | none =>
            have e1 : writeValsF d heap fuel (w :: rest) st = none := by
              simp [writeValsF, hL1, hL2]
            have e2 : writeValsF d heap fuel (w :: rest) st2 = none := by
              simp [writeValsF, hR1, hR2]
            rw [e1, e2]
            exact trivial
          | some q =>
            obtain ⟨tq, sq⟩ := q
            rw [hL2, hR2] at h2
            exact False.elim h2
        | some q =>
          obtain ⟨tail, stt⟩ := q
          cases hR2 : writeValsF d heap fuel rest so2 with
          | none =>
            rw [hL2, hR2] at h2
            exact False.elim h2
          | some q2 =>
            obtain ⟨tail2, stt2⟩ := q2
            rw [hL2, hR2] at h2
            obtain ⟨hkt, hbt, het⟩ := h2
            have e1 : writeValsF d heap fuel (w :: rest) st
                = some (o1 ++ "\n" ++ tail, stt) := by
              simp [writeValsF, hL1, hL2]
            have e2 : writeValsF d heap fuel (w :: rest) st2
                = some (o2 ++ "\n" ++ tail2, stt2) := by
              simp [writeValsF, hR1, hR2]
            rw [e1, e2]
            exact outRel_compose0 "\n" hbo heo hbt het hkt

/-- C4 (amended): re-rendering is byte-identical, from any two values of the
never-reset global counter, for an acyclic value list under two conditions the
counterexample and Go's map randomization force: the value graph contains no
non-nil map (`mapFree` — Go draws map entry order from `v.MapKeys()`, randomized
per call, whereas the model fixes one order per abstract map value, so map
determinism is deliberately not claimed), and the first render's output carries
no `↩` back-reference marker (no addressable pointer was revisited — true in
particular for every value whose pointers are unshared, which the
counterexample's shared pointer is not). -/
theorem render_deterministic (d : Dumper) (heap : List RVal) (fuel : Nat)
    (vs : List RVal) (g g2 : Nat) (out : String) (gout : Nat)
    (hm : (mapFreeList vs && mapFreeList heap) = true)
    (h : writeDumpF d heap fuel vs g = some (out, gout))
    (hb : hasBackref out = false) :
    (writeDumpF d heap fuel vs g2).map Prod.fst = some out := by
  have hrel := writeValsRel d heap fuel vs ⟨[], g⟩ ⟨[], g2⟩ rfl
  cases hL : writeValsF d heap fuel vs ⟨[], g⟩ with
  | none =>
    have e1 : writeDumpF d heap fuel vs g = none := by
      simp [writeDumpF, hL]
    rw [e1] at h
    exact Option.noConfusion h
  | some p =>
    obtain ⟨o, stp⟩ := p
    have e1 : writeDumpF d heap fuel vs g = some (o, stp.nextID) := by
      simp [writeDumpF, hL]
    rw [e1] at h
    simp only [Option.some_inj, Prod.mk.injEq] at h
    cases hR : writeValsF d heap fuel vs ⟨[], g2⟩ with
    | none =>
      rw [hL, hR] at hrel
      exact False.elim hrel
    | some q =>
      obtain ⟨o2, stq⟩ := q
      rw [hL, hR] at hrel
      obtain ⟨hkq, hbq, heq⟩ := hrel
      have ho : o = out := h.1
      subst ho
      have ho2 : o = o2 := heq hb
      have e2 : writeDumpF d heap fuel vs g2 = some (o2, stq.nextID) := by
        simp [writeDumpF, hR]
      rw [e2]
      simp only [Option.map_some']
      rw [← ho2]

/-- A heap cell and a struct whose single field points at it (`x := 7;
b := Box⦃&x⦄`): one unshared addressable pointer, no map. -/
def boxHeap : List RVal := [.vint 7]

/-- The single-pointer struct over `boxHeap`. -/
def boxVal : RVal :=
  .vstruct "godump.Box" [("A", true, .vptr "*int" (some 0))]

/-- Witness for C4's amended theorem: the unshared-pointer struct, first
rendered from counter 1 (producing these exact bytes and no back-reference
marker), renders to the same bytes from counter 7. -/
theorem render_deterministic_witness :
    (writeDumpF defaultDumper boxHeap 20 [boxVal] 7).map Prod.fst
      = some "#godump.Box \x7b\n  +A\t=> 7\n\x7d\n" :=
  render_deterministic defaultDumper boxHeap 20 [boxVal] 1 7
    "#godump.Box \x7b\n  +A\t=> 7\n\x7d\n" 2 (by decide) (by decide) (by decide)

/-! ### C6: collection truncation -/

/-- The slice/array loop over a collection that overruns `maxItems` renders
exactly the first `maxItems - i` elements and then the truncation marker line:
it equals the loop over the *truncated* element list with the marker appended,
so elements past the limit are never consulted. -/
theorem sliceLoopF_truncates (d : Dumper) (heap : List RVal) (ea : Bool)
    (indent : Nat) :
    ∀ (elems : List RVal) (f : Nat) (i : Nat) (st : RefSt),
      (i : Int) ≤ d.maxItems → d.maxItems < (elems.length : Int) + i →
      sliceLoopF d heap f elems ea i indent st
        = (sliceLoopF d heap f (elems.take (d.maxItems - i).toNat) ea i indent st).map
            (fun p => (p.1 ++ indentStr (indent + 1) ++ "... (truncated)\n", p.2)) := by
  intro elems
  induction elems with
  | nil =>
    intro f i st h1 h2
    simp at h2
    omega
  | cons e rest ih =>
    intro f i st h1 h2
    cases f with
    | zero => rfl
    | succ f =>
      by_cases hi : (i : Int) ≥ d.maxItems
      · have hz : (d.maxItems - (i : Int)).toNat = 0 := by omega
        simp only [sliceLoopF, hi, if_true, hz, List.take_zero]
        simp [String.empty_append]
      · have hpos : (d.maxItems - (i : Int)).toNat = (d.maxItems - ((i : Int) + 1)).toNat + 1 := by
          omega
        have hcast : ((i : Int) + 1) = ((i + 1 : Nat) : Int) := by push_cast; ring
        have h2' : d.maxItems < (rest.length : Int) + ((i + 1 : Nat) : Int) := by
          simp only [List.length_cons] at h2
          push_cast at h2 ⊢
          omega
        cases hc : printValueF d heap f e ea (indent + 1) st with
        | none =>
          simp only [sliceLoopF, hi, if_false, hpos, List.take_succ_cons, hc, Option.map_none']
        | some p =>
          obtain ⟨o, st1⟩ := p
          have hrec := ih f (i + 1) st1 (by omega) h2'
          simp only [sliceLoopF, hi, if_false, hpos, List.take_succ_cons, hcast, hc, hrec]
          cases sliceLoopF d heap f (rest.take (d.maxItems - ((i + 1 : Nat) : Int)).toNat) ea
              (i + 1) indent st1 with
          | none => rfl
          | some q =>
            obtain ⟨tail, st2⟩ := q
            simp [String.append_assoc]

/-- The map entry loop over a collection that overruns `maxItems` renders exactly
the first `maxItems - i` entries and then the truncation marker (no trailing
newline, as in the source): it equals the loop over the truncated entry list with
the marker appended, so entries past the limit are never consulted. -/
theorem mapLoopF_truncates (d : Dumper) (heap : List RVal) (indent : Nat) :
    ∀ (entries : List (String × RVal)) (f : Nat) (i : Nat) (st : RefSt),
      (i : Int) ≤ d.maxItems → d.maxItems < (entries.length : Int) + i →
      mapLoopF d heap f entries i indent st
        = (mapLoopF d heap f (entries.take (d.maxItems - i).toNat) i indent st).map
            (fun p => (p.1 ++ indentStr (indent + 1) ++ "... (truncated)", p.2)) := by
  intro entries
  induction entries with
  | nil =>
    intro f i st h1 h2
    simp at h2
    omega
  | cons e rest ih =>
    obtain ⟨k, val⟩ := e
    intro f i st h1 h2
    cases f with
    | zero => rfl
    | succ f =>
      by_cases hi : (i : Int) ≥ d.maxItems
      · have hz : (d.maxItems - (i : Int)).toNat = 0 := by omega
        simp only [mapLoopF, hi, if_true, hz, List.take_zero]
        simp [String.empty_append]
      · have hpos : (d.maxItems - (i : Int)).toNat = (d.maxItems - ((i : Int) + 1)).toNat + 1 := by
          omega
        have hcast : ((i : Int) + 1) = ((i + 1 : Nat) : Int) := by push_cast; ring
        have h2' : d.maxItems < (rest.length : Int) + ((i + 1 : Nat) : Int) := by
          simp only [List.length_cons] at h2
          push_cast at h2 ⊢
          omega
        cases hc : printValueF d heap f val false (indent + 1) st with
        | none =>
          simp only [mapLoopF, hi, if_false, hpos, List.take_succ_cons, hc, Option.map_none']
        | some p =>
          obtain ⟨o, st1⟩ := p
          have hrec := ih f (i + 1) st1 (by omega) h2'
          simp only [mapLoopF, hi, if_false, hpos, List.take_succ_cons, hcast, hc, hrec]
          cases mapLoopF d heap f (rest.take (d.maxItems - ((i + 1 : Nat) : Int)).toNat)
              (i + 1) indent st1 with
          | none => rfl
          | some q =>
            obtain ⟨tail, st2⟩ := q
            simp [String.append_assoc]

/-- C6: REFUTED as stated — a `[]uint8` slice is a slice, yet it never goes
through the `maxItems` loop: the renderer short-circuits to the hex-dump
formatter (source lines 497–506), which prints *all* bytes.  With `maxItems = 2`
and five bytes, the output carries no `... (truncated)` marker and contains every
byte including entries 3, 4 and 5 — the claim requires exactly 2 entries and one
marker. -/
theorem byte_slice_no_truncation_cx :
    (printValueF (NewDumper [WithMaxItems 2]) [] 5
        (.vbytes "[]uint8" (some [104, 105, 106, 107, 108])) false 0 st0).map
      (fun p => (containsSub "... (truncated)" p.1, containsSub "68 69 6a 6b 6c" p.1))
      = some (false, true) := by decide

/-- C6 (amended): for every *non-byte* slice, for every array, and for every map
of size `S` with configured `0 ≤ maxItems = M < S`, the rendering equals the
rendering of the collection truncated to its first `M` elements followed by a
single `... (truncated)` marker — in particular exactly `M` entries are rendered
and entries beyond the `M`-th are never consulted, let alone rendered.  Byte
slices are excepted: they render in full through the hex-dump formatter with no
marker (the counterexample exhibits this). -/
theorem collection_truncation (d : Dumper) (heap : List RVal) (t : String)
    (elems : List RVal) (entries : List (String × RVal)) (f : Nat) (c : Bool)
    (indent : Nat) (st : RefSt)
    (hind : ¬((indent : Int) > d.maxDepth))
    (hM : 0 ≤ d.maxItems)
    (hS : d.maxItems < (elems.length : Int))
    (hE : d.maxItems < (entries.length : Int)) :
    (printValueF d heap (f + 1) (.vslice t (some elems)) c indent st
      = (sliceLoopF d heap f (elems.take d.maxItems.toNat) true 0 indent st).map
          (fun p => ("[" ++ "\n" ++ (p.1 ++ indentStr (indent + 1) ++ "... (truncated)\n")
              ++ indentStr indent ++ "]", p.2)))
    ∧ (printValueF d heap (f + 1) (.varray t elems) c indent st
      = (sliceLoopF d heap f (elems.take d.maxItems.toNat) c 0 indent st).map
          (fun p => ("[" ++ "\n" ++ (p.1 ++ indentStr (indent + 1) ++ "... (truncated)\n")
              ++ indentStr indent ++ "]", p.2)))
    ∧ (printValueF d heap (f + 1) (.vmap t (some entries)) c indent st
      = (mapLoopF d heap f (entries.take d.maxItems.toNat) 0 indent st).map
          (fun p => ("\x7b" ++ "\n" ++ (p.1 ++ indentStr (indent + 1) ++ "... (truncated)")
              ++ indentStr indent ++ "\x7d", p.2))) := by
  have hsl := sliceLoopF_truncates d heap true indent elems f 0 st (by omega)
    (by simpa using hS)
  have har := sliceLoopF_truncates d heap c indent elems f 0 st (by omega)
    (by simpa using hS)
  have hmp := mapLoopF_truncates d heap indent entries f 0 st (by omega)
    (by simpa using hE)
  simp only [Nat.cast_zero, Int.sub_zero] at hsl har hmp
  refine ⟨?_, ?_, ?_⟩
  · simp only [printValueF, hind, if_false, asStringer, isNilV, hsl]
    cases sliceLoopF d heap f (elems.take d.maxItems.toNat) true 0 indent st with
    | none => rfl
    | some p =>
      obtain ⟨body, st1⟩ := p
      simp [String.append_assoc]
  · simp only [printValueF, hind, if_false, asStringer, isNilV, har]
    cases sliceLoopF d heap f (elems.take d.maxItems.toNat) c 0 indent st with
    | none => rfl
    | some p =>
      obtain ⟨body, st1⟩ := p
      simp [String.append_assoc]
  · simp only [printValueF, hind, if_false, asStringer, isNilV, hmp]
    cases mapLoopF d heap f (entries.take d.maxItems.toNat) 0 indent st with
    | none => rfl
    | some p =>
      obtain ⟨body, st1⟩ := p
      simp [String.append_assoc]

/-- Witness for C6's amended theorem: a three-element int slice with
`maxItems = 2`. -/
theorem collection_truncation_witness :
    printValueF (NewDumper [WithMaxItems 2]) [] 11
        (.vslice "[]int" (some [.vint 1, .vint 2, .vint 3])) false 0 st0
      = (sliceLoopF (NewDumper [WithMaxItems 2]) [] 10
          ([RVal.vint 1, RVal.vint 2, RVal.vint 3].take
            (NewDumper [WithMaxItems 2]).maxItems.toNat) true 0 0 st0).map
          (fun p => ("[" ++ "\n" ++ (p.1 ++ indentStr (0 + 1) ++ "... (truncated)\n")
              ++ indentStr 0 ++ "]", p.2)) :=
  (collection_truncation (NewDumper [WithMaxItems 2]) [] "[]int"
    [.vint 1, .vint 2, .vint 3] [("a", .vint 1), ("b", .vint 2), ("c", .vint 3)]
    10 false 0 st0 (by decide) (by decide) (by decide) (by decide)).1

/-! ### C3 and C8: the depth guard on a pointer chain -/

/-- The declared fields of node `i` of an `n`-node chain. -/
def chainFields (n i : Nat) : List (String × Bool × RVal) :=
  [("Tag", true, .vuint i),
   ("Next", true, .vptr "*godump.Node" (if i + 1 < n then some (i + 1) else none))]

/-- Node `i` of an `n`-node linked chain `Node ⦃Tag uint; Next *Node⦄`: the last
node's `Next` is nil, every other node points at its successor. -/
def chainNode (n i : Nat) : RVal :=
  .vstruct "godump.Node" (chainFields n i)

/-- The heap of the `n`-node chain: address `i` holds node `i`. -/
def chainHeap (n : Nat) : List RVal :=
  (List.range n).map (chainNode n)

theorem chainHeap_get (n k : Nat) (h : k < n) :
    (chainHeap n)[k]? = some (chainNode n k) := by
  simp [chainHeap, List.getElem?_map, List.getElem?_range, h]

/-- Rendering a `vuint` leaf ignores the heap. -/
theorem printValueF_vuint_heap (d : Dumper) (h1 h2 : List RVal) (f n : Nat)
    (ca : Bool) (i : Nat) (st : RefSt) :
    printValueF d h1 f (.vuint n) ca i st = printValueF d h2 f (.vuint n) ca i st := by
  cases f <;> cases ca <;> rfl

/-- Rendering a `vuint` leaf with at least one unit of fuel: the max-depth
marker beyond the guard, the decimal literal below it; the state is untouched. -/
theorem printValueF_vuint_succ (d : Dumper) (h : List RVal) (f n : Nat) (ca : Bool)
    (i : Nat) (st : RefSt) :
    printValueF d h (f + 1) (.vuint n) ca i st
      = some (if (i : Int) > d.maxDepth then "... (max depth)" else toString n, st) := by
  cases ca <;> by_cases hg : (i : Int) > d.maxDepth <;>
    simp [printValueF, asStringer, isNilV, hg]

/-- With at least one unit of fuel, any node at an indent beyond the configured
max depth renders as the max-depth marker (the guard precedes every other
dispatch step). -/
theorem printValueF_guard_succ (d : Dumper) (h : List RVal) (f : Nat) (v : RVal)
    (ca : Bool) (i : Nat) (st : RefSt) (hg : (i : Int) > d.maxDepth) :
    printValueF d h (f + 1) v ca i st = some ("... (max depth)", st) := by
  simp [printValueF, hg]

theorem containsSub_self (n : String) : containsSub n n = true := by
  simpa [String.append_empty] using containsSub_self_append n ""

/-- Unfolding the struct case: below the depth guard, a struct renders its field
loop wrapped in `#<type> ⦃ … ⦄`. -/
theorem printValueF_struct_succ (d : Dumper) (h : List RVal) (f : Nat) (t : String)
    (fields : List (String × Bool × RVal)) (ca : Bool) (i : Nat) (st : RefSt)
    (hg : ¬((i : Int) > d.maxDepth)) :
    printValueF d h (f + 1) (.vstruct t fields) ca i st
      = (fieldsLoopF d h f fields ca i st).map
          (fun p => ("#" ++ t ++ " \x7b" ++ "\n" ++ p.1 ++ indentStr i ++ "\x7d", p.2)) := by
  cases ca <;>
    · simp only [printValueF, asStringer, isNilV, hg, if_false]
      cases fieldsLoopF d h f fields _ i st with
      | none => rfl
      | some p => rfl

/-- Heap truncation: with max depth `D < N`, rendering the chain of `N` nodes
coincides — output and reference state — with rendering the chain truncated to
its first `D + 1` nodes, at every fuel, every addressability and every reference
state: the renderer never reads the heap beyond node `D`.  Joint statement for
the pointer to node `k` and for node `k` itself, both at indent `k`. -/
theorem chain_eq (d : Dumper) (D N : Nat) (hd : d.maxDepth = (D : Int)) (hDN : D < N) :
    ∀ f,
      (∀ k ca st, k ≤ D →
        printValueF d (chainHeap N) f (.vptr "*godump.Node" (some k)) ca k st
          = printValueF d (chainHeap (D + 1)) f (.vptr "*godump.Node" (some k)) ca k st)
      ∧ (∀ k st, k ≤ D →
        printValueF d (chainHeap N) f (chainNode N k) true k st
          = printValueF d (chainHeap (D + 1)) f (chainNode (D + 1) k) true k st) := by
  intro f
  induction f using Nat.strong_induction_on with
  | _ f ih =>
    constructor
    · intro k ca st hk
      cases f with
      | zero => rfl
      | succ f1 =>
        have hgk : ¬((k : Int) > d.maxDepth) := by rw [hd]; push_cast; omega
        have hget1 := chainHeap_get N k (by omega)
        have hget2 := chainHeap_get (D + 1) k (by omega)
        cases ca with
        | false =>
          simp only [printValueF, hgk, if_false, asStringer, isNilV, hget1, hget2]
          exact (ih f1 (by omega)).2 k st hk
        | true =>
          simp only [printValueF, hgk, if_false, asStringer, isNilV, hget1, hget2]
          cases st.refMap.lookup k with
          | some id => rfl
          | none => exact (ih f1 (by omega)).2 k _ hk
    · intro k st hk
      cases f with
      | zero => rfl
      | succ f1 =>
        have hgk : ¬((k : Int) > d.maxDepth) := by rw [hd]; push_cast; omega
        have hfl : fieldsLoopF d (chainHeap N) f1 (chainFields N k) true k st
            = fieldsLoopF d (chainHeap (D + 1)) f1 (chainFields (D + 1) k) true k st := by
          cases f1 with
          | zero => rfl
          | succ f2 =>
            have hvu := printValueF_vuint_heap d (chainHeap (D + 1)) (chainHeap N) f2 k
              true (k + 1) st
            simp only [chainFields, fieldsLoopF, asStringer, hvu]
            cases hres : printValueF d (chainHeap N) f2 (.vuint k) true (k + 1) st with
            | none => rfl
            | some p =>
              obtain ⟨o, st1⟩ := p
              cases f2 with
              | zero => rfl
              | succ f3 =>
                by_cases hkD : k = D
                · have hg2 : ((k + 1 : Nat) : Int) > d.maxDepth := by
                    rw [hd, hkD]; push_cast; omega
                  cases f3 with
                  | zero => rfl
                  | succ f4 =>
                    simp only [fieldsLoopF, asStringer,
                      printValueF_guard_succ d (chainHeap N) f4
                        (.vptr "*godump.Node" (if k + 1 < N then some (k + 1) else none))
                        true (k + 1) st1 hg2,
                      printValueF_guard_succ d (chainHeap (D + 1)) f4
                        (.vptr "*godump.Node" (if k + 1 < D + 1 then some (k + 1) else none))
                        true (k + 1) st1 hg2]
                · have hlt1 : k + 1 < N := by omega
                  have hlt2 : k + 1 < D + 1 := by omega
                  simp only [fieldsLoopF, asStringer, if_pos hlt1, if_pos hlt2]
                  rw [(ih f3 (by omega)).1 (k + 1) true st1 (by omega)]
                  cases printValueF d (chainHeap (D + 1)) f3
                      (.vptr "*godump.Node" (some (k + 1))) true (k + 1) st1 with
                  | none => rfl
                  | some q =>
                    obtain ⟨o2, st2⟩ := q
                    cases f3 with
                    | zero => rfl
                    | succ f4 => rfl
        simp only [chainNode, printValueF, asStringer, isNilV, hgk, if_false]
        rw [hfl]
        simp

/-- Marker presence: with max depth `D < N`, the pointer to node `k` (rendered at
indent `k`, in any reference state that has not yet registered addresses `≥ k`)
renders successfully with fuel `4 * (D - k) + 8`, and its output decomposes
around the `... (max depth)` marker. -/
theorem chain_marker (d : Dumper) (D N : Nat) (hd : d.maxDepth = (D : Int))
    (hDN : D < N) :
    ∀ f k ca st, k ≤ D → 4 * (D - k) + 8 ≤ f →
      (∀ j, k ≤ j → st.refMap.lookup j = none) →
      ∃ pre post st',
        printValueF d (chainHeap N) f (.vptr "*godump.Node" (some k)) ca k st
          = some (pre ++ "... (max depth)" ++ post, st') := by
  intro f
  induction f using Nat.strong_induction_on with
  | _ f ih =>
    intro k ca st hk hf hinv
    obtain ⟨f1, rfl⟩ : ∃ f1, f = f1 + 1 := ⟨f - 1, by omega⟩
    have hgk : ¬((k : Int) > d.maxDepth) := by rw [hd]; push_cast; omega
    have hget := chainHeap_get N k (by omega)
    have hnode : ∀ stX : RefSt, (∀ j, k + 1 ≤ j → stX.refMap.lookup j = none) →
        ∃ pre post st',
          printValueF d (chainHeap N) f1 (chainNode N k) true k stX
            = some (pre ++ "... (max depth)" ++ post, st') := by
      intro stX hinvX
      obtain ⟨f2, rfl⟩ : ∃ f2, f1 = f2 + 1 := ⟨f1 - 1, by omega⟩
      obtain ⟨f3, rfl⟩ : ∃ f3, f2 = f3 + 1 := ⟨f2 - 1, by omega⟩
      obtain ⟨f4, rfl⟩ : ∃ f4, f3 = f4 + 1 := ⟨f3 - 1, by omega⟩
      obtain ⟨f5, rfl⟩ : ∃ f5, f4 = f5 + 1 := ⟨f4 - 1, by omega⟩
      have htag := printValueF_vuint_succ d (chainHeap N) (f5 + 1) k true (k + 1) stX
      by_cases hkD : k = D
      · have hg2 : ((k + 1 : Nat) : Int) > d.maxDepth := by
          rw [hd, hkD]; push_cast; omega
        have enext := printValueF_guard_succ d (chainHeap N) f5
          (.vptr "*godump.Node" (if k + 1 < N then some (k + 1) else none))
          true (k + 1) stX hg2
        refine ⟨"#" ++ "godump.Node" ++ " \x7b" ++ "\n"
            ++ (indentStr (k + 1) ++ "+" ++ "Tag" ++ "\t=> "),
          "\n" ++ (indentStr (k + 1) ++ "+" ++ "Next" ++ "\t=> "
            ++ "... (max depth)" ++ "\n")
            ++ indentStr k ++ "\x7d", stX, ?_⟩
        simp only [chainNode]
        rw [printValueF_struct_succ d (chainHeap N) (f5 + 1 + 1 + 1) "godump.Node"
          (chainFields N k) true k stX hgk]
        simp only [chainFields, fieldsLoopF, asStringer, htag, hg2, if_true, enext,
          Option.map_some']
        simp only [if_true, String.append_assoc, String.append_empty, String.empty_append]
      · have hg3 : ¬(((k + 1 : Nat) : Int) > d.maxDepth) := by
          rw [hd]; push_cast; omega
        have hlt1 : k + 1 < N := by omega
        obtain ⟨pre', post', st'', enext⟩ := ih (f5 + 1) (by omega) (k + 1) true stX
          (by omega) (by omega) hinvX
        refine ⟨"#" ++ "godump.Node" ++ " \x7b" ++ "\n"
            ++ (indentStr (k + 1) ++ "+" ++ "Tag" ++ "\t=> ") ++ toString k ++ "\n"
            ++ (indentStr (k + 1) ++ "+" ++ "Next" ++ "\t=> ") ++ pre',
          post' ++ "\n" ++ indentStr k ++ "\x7d", st'', ?_⟩
        simp only [chainNode]
        rw [printValueF_struct_succ d (chainHeap N) (f5 + 1 + 1 + 1) "godump.Node"
          (chainFields N k) true k stX hgk]
        simp only [chainFields, fieldsLoopF, asStringer, htag, hg3, if_false,
          if_pos hlt1, enext, Option.map_some']
        simp only [if_true, String.append_assoc, String.append_empty, String.empty_append]
    cases ca with
    | false =>
      obtain ⟨pre, post, st', heq⟩ := hnode st (fun j hj => hinv j (by omega))
      refine ⟨pre, post, st', ?_⟩
      simp only [printValueF, asStringer, isNilV, hgk, if_false, hget]
      exact heq
    | true =>
      have hlk := hinv k (le_refl k)
      have hinv' : ∀ j, k + 1 ≤ j →
          (RefSt.mk ((k, st.nextID) :: st.refMap) (st.nextID + 1)).refMap.lookup j
            = none := by
        intro j hj
        have hjk : (j == k) = false := by
          simp only [beq_eq_false_iff_ne]
          omega
        simp only [List.lookup, hjk]
        exact hinv j (by omega)
      obtain ⟨pre, post, st', heq⟩ := hnode _ hinv'
      refine ⟨pre, post, st', ?_⟩
      simp only [printValueF, asStringer, isNilV, hgk, if_false, hget, hlk]
      exact heq

/-- `writeDump`-level heap truncation: dumping the full chain and dumping the
chain truncated just past the depth limit produce identical results. -/
theorem writeDump_chain_eq (d : Dumper) (D N f g : Nat) (hd : d.maxDepth = (D : Int))
    (hDN : D < N) :
    writeDumpF d (chainHeap N) f [.vptr "*godump.Node" (some 0)] g
      = writeDumpF d (chainHeap (D + 1)) f [.vptr "*godump.Node" (some 0)] g := by
  have h := (chain_eq d D N hd hDN f).1 0 false ⟨[], g⟩ (by omega)
  simp only [writeDumpF, writeValsF, makeAddressable]
  rw [h]

/-- `writeDump`-level marker presence: dumping a chain longer than the depth
limit emits the `... (max depth)` marker. -/
theorem writeDump_chain_marker (d : Dumper) (D N f g : Nat)
    (hd : d.maxDepth = (D : Int)) (hDN : D < N) (hf : 4 * D + 8 ≤ f) :
    (writeDumpF d (chainHeap N) f [.vptr "*godump.Node" (some 0)] g).map
      (fun p => containsSub "... (max depth)" p.1) = some true := by
  obtain ⟨pre, post, st', heq⟩ := chain_marker d D N hd hDN f 0 false ⟨[], g⟩
    (by omega) (by simpa using hf) (by intro j hj; rfl)
  simp only [writeDumpF, writeValsF, makeAddressable, heq, Option.map_some',
    Option.some_inj]
  exact containsSub_append_left _ _ _ (containsSub_append_left _ _ _
    (containsSub_append_left _ _ _ (containsSub_append_right _ _ _
      (containsSub_self _))))

/-- C8: CONFIRMED — for a chain of `N` pointer-linked nodes dumped with max
depth `D < N`: the dump equals the dump of the chain truncated to its first
`D + 1` nodes (so no content of nodes beyond depth `D` can appear — the renderer
never even reads them), and the `... (max depth)` marker is present (given fuel
covering the `D + 1` rendered levels).  Depth accounting: pointer indirection
descends at the same depth, which is why node `k` sits at indent `k` in the
chain lemmas, while the struct-field step renders at `indent + 1`; the final
conjunct states the same-depth law for interface indirection explicitly. -/
theorem max_depth_chain (D N f g : Nat) (hDN : D < N) :
    (writeDumpF (NewDumper [WithMaxDepth (D : Int)]) (chainHeap N) f
        [.vptr "*godump.Node" (some 0)] g
      = writeDumpF (NewDumper [WithMaxDepth (D : Int)]) (chainHeap (D + 1)) f
        [.vptr "*godump.Node" (some 0)] g)
    ∧ (4 * D + 8 ≤ f →
      (writeDumpF (NewDumper [WithMaxDepth (D : Int)]) (chainHeap N) f
          [.vptr "*godump.Node" (some 0)] g).map
        (fun p => containsSub "... (max depth)" p.1) = some true)
    ∧ (∀ (heap : List RVal) (t : String) (w : RVal) (f' : Nat) (c : Bool) (i : Nat)
        (st : RefSt),
        ¬((i : Int) > (NewDumper [WithMaxDepth (D : Int)]).maxDepth) →
        printValueF (NewDumper [WithMaxDepth (D : Int)]) heap (f' + 1)
            (.viface t (some w)) c i st
          = printValueF (NewDumper [WithMaxDepth (D : Int)]) heap f' w false i st) := by
  have hd : (NewDumper [WithMaxDepth (D : Int)]).maxDepth = (D : Int) := by
    simp [NewDumper, WithMaxDepth, Int.natCast_nonneg]
  refine ⟨writeDump_chain_eq _ D N f g hd hDN,
    fun hf => writeDump_chain_marker _ D N f g hd hDN hf, ?_⟩
  intro heap t w f' c i st hgi
  cases c <;> simp [printValueF, asStringer, isNilV, hgi]

/-- Witness for C8 at `D = 1`, `N = 3`: the marker appears. -/
theorem max_depth_chain_witness :
    (writeDumpF (NewDumper [WithMaxDepth ((1 : Nat) : Int)]) (chainHeap 3) 20
        [.vptr "*godump.Node" (some 0)] 1).map
      (fun p => containsSub "... (max depth)" p.1) = some true :=
  (max_depth_chain 1 3 20 1 (by decide)).2.1 (by decide)

/-- C3: REFUTED — a negative value passed to the max-depth option does *not*
disable the depth limit: `WithMaxDepth` ignores negative arguments (source lines
107–114), leaving the default max depth 15 in place, so a 17-node chain dumped
with `WithMaxDepth (-1)` still contains the `... (max depth)` marker. -/
theorem negative_maxDepth_marker_cx :
    (NewDumper [WithMaxDepth (-1)]).maxDepth = 15
    ∧ (writeDumpF (NewDumper [WithMaxDepth (-1)]) (chainHeap 17) 100
        [.vptr "*godump.Node" (some 0)] 1).map
        (fun p => containsSub "... (max depth)" p.1) = some true := by
  refine ⟨by decide, ?_⟩
  exact writeDump_chain_marker (NewDumper [WithMaxDepth (-1)]) 15 17 100 1
    (by decide) (by omega) (by omega)

/-- C3 (amended): a negative argument to the max-depth option is ignored — the
option leaves the dumper unchanged, so the default max depth 15 remains in
effect (and the marker can still appear for values nested beyond 15, as the
counterexample shows). -/
theorem withMaxDepth_negative_ignored (n : Int) (d : Dumper) (hn : n < 0) :
    WithMaxDepth n d = d ∧ (NewDumper [WithMaxDepth n]).maxDepth = 15 := by
  have h : ∀ d' : Dumper, WithMaxDepth n d' = d' := by
    intro d'
    unfold WithMaxDepth
    rw [if_neg (by omega)]
  refine ⟨h d, ?_⟩
  simp [NewDumper, h, defaultMaxDepth]

/-- Witness for C3's amended theorem at `n = -1`. -/
theorem withMaxDepth_negative_ignored_witness :
    WithMaxDepth (-1) defaultDumper = defaultDumper
    ∧ (NewDumper [WithMaxDepth (-1)]).maxDepth = 15 :=
  withMaxDepth_negative_ignored (-1) defaultDumper (by decide)

/-- Every replacement is at least one character long. -/
theorem escChar_length (c : Char) : 1 ≤ (escChar c).length := by
  unfold escChar
  repeat' split
  all_goals first | decide | simp

/-- Escaping never shortens a character list. -/
theorem escapeList_length (l : List Char) : l.length ≤ (escapeList l).length := by
  induction l with
  | nil => simp [escapeList]
  | cons c cs ih =>
    have h1 := escChar_length c
    simp only [escapeList, List.length_cons, String.length_append]
    omega

/-- C7: REFUTED in one conjunct — ESC does not get a two-character escape.  The
replacer (source lines 610–617) maps ESC (0x1b) to the four-character text
`\x1b`; rendering the one-character string consisting of ESC produces a
four-character body between the quotes.  The other five control characters do
map to two-character escapes, and the truncation part of the claim is proved in
the amended theorem. -/
theorem esc_escape_four_chars_cx :
    escapeControl (String.singleton (Char.ofNat 27)) = "\\x1b"
    ∧ (escapeControl (String.singleton (Char.ofNat 27))).length = 4
    ∧ (printValueF defaultDumper [] 5
        (.vstring (String.singleton (Char.ofNat 27))) false 0 st0).map Prod.fst
      = some "\"\\x1b\"" := by
  exact ⟨by decide, by decide, by decide⟩

/-- C7 (amended): for every string `s` of rune-length `L` and configured max
string length `K < L`, the rendered string is the quoted first `K` runes of the
escaped text followed by exactly one ellipsis character and the closing quote —
and that truncated body has exactly `K` runes.  (Lean strings are sequences of
unicode scalar values, so `String.length` counts runes exactly as
`utf8.RuneCountInString` and `[]rune` do in the source; truncation is by rune
count, not bytes.)  Newline, tab, carriage return, vertical tab and form feed
escape to their two-character escapes; ESC escapes to the four-character
`\x1b`. -/
theorem string_truncation (s : String) (K : Nat) (heap : List RVal) (f : Nat)
    (c : Bool) (st : RefSt) (hK : K < s.length) :
    (printValueF (NewDumper [WithMaxStringLen (K : Int)]) heap (f + 1)
        (.vstring s) c 0 st
      = some ("\"" ++ (String.mk ((escapeControl s).toList.take K) ++ "…") ++ "\"", st))
    ∧ (String.mk ((escapeControl s).toList.take K)).length = K
    ∧ escapeControl "\n" = "\\n" ∧ escapeControl "\t" = "\\t"
    ∧ escapeControl "\r" = "\\r"
    ∧ escapeControl (String.singleton (Char.ofNat 11)) = "\\v"
    ∧ escapeControl (String.singleton (Char.ofNat 12)) = "\\f"
    ∧ escapeControl (String.singleton (Char.ofNat 27)) = "\\x1b" := by
  have hE : s.length ≤ (escapeControl s).length := escapeList_length s.toList
  have hD : NewDumper [WithMaxStringLen (K : Int)]
      = ⟨defaultMaxDepth, defaultMaxItems, (K : Int)⟩ := by
    simp [NewDumper, WithMaxStringLen, Int.natCast_nonneg]
  refine ⟨?_, ?_, by decide, by decide, by decide, by decide, by decide, by decide⟩
  · rw [hD]
    have hgt : ((escapeControl s).length : Int) > (K : Int) := by
      push_cast
      omega
    simp only [printValueF, asStringer, isNilV]
    rw [if_neg (by decide), if_pos hgt]
    simp
  · have hKlen : K ≤ (escapeControl s).toList.length := by
      have h : (escapeControl s).toList.length = (escapeControl s).length := rfl
      omega
    simp only [String.length_mk, List.length_take]
    omega

/-- Witness for C7's amended theorem at `s = "abcd"`, `K = 2`. -/
theorem string_truncation_witness :
    printValueF (NewDumper [WithMaxStringLen ((2 : Nat) : Int)]) [] 6
        (.vstring "abcd") false 0 st0
      = some ("\"" ++ (String.mk ((escapeControl "abcd").toList.take 2) ++ "…") ++ "\"", st0) :=
  (string_truncation "abcd" 2 [] 5 false st0 (by decide)).1

end Godump
